import Mathlib

/-!
Verification of `babel-plugin-mockable-imports`.

Part 1 embeds the runtime registry (`src/helpers.js`, class `ImportMap`):
JavaScript values are modelled by `JSValue`, the instance's `$meta` table and
its data properties by two association lists with JS-object update semantics
(replace in place, else append).  The `$mock` method's object-overlay path is
modelled by `mockOne` / `mockRun`; since a JS exception leaves all property
writes made before the throw in place, these return the updated map together
with an optional error message instead of an `Except`.

Part 2 embeds the rewriter (`src/index.js`): the module-level statement forms
the plugin inspects, the visitors (`ImportDeclaration`, `VariableDeclaration`,
`AssignmentExpression`, `ReferencedIdentifier`) as a sequential pass over the
top-level statement list, and `Program.exit` as `finalizeExit`.  Babel's
`path.insertAfter` inserts directly after the path's node, so repeated calls
on one path accumulate in reverse order; the model reproduces this by
prepending to the list of inserted statements.
-/

/-- Model of the JavaScript values the registry manipulates: functions are
opaque (identified by a tag), objects are ordered key/value lists, and the
remaining values the claims need are numbers and `undefined`. -/
inductive JSValue where
  | vfn (id : Nat)
  | vobj (fields : List (String × JSValue))
  | vnum (n : Int)
  | vundefined

/-- Lookup in an association list (first matching key wins, like reading a
JS object property). -/
def lookupAssoc {α : Type} : List (String × α) → String → Option α
  | [], _ => none
  | (k, w) :: rest, a => if k == a then some w else lookupAssoc rest a

/-- JS object property write: replace the existing entry in place, otherwise
append at the end (insertion order). -/
def setAssoc {α : Type} : List (String × α) → String → α → List (String × α)
  | [], a, v => [(a, v)]
  | (k, w) :: rest, a, v =>
    if k == a then (k, v) :: rest else (k, w) :: setAssoc rest a v

/-- The `typeof imports === "function"` test in `$mock`. -/
def isFunction : JSValue → Bool
  | .vfn _ => true
  | _ => false

/-- `Object.keys` of a replacement description.  Modelled for the two
description shapes the plugin documents (objects and bare functions);
functions have no enumerable own properties. -/
def keysOf : JSValue → List String
  | .vobj fields => fields.map Prod.fst
  | _ => []

/-- Property read `desc[symbol]` on a replacement description. -/
def getKey (v : JSValue) (k : String) : JSValue :=
  match v with
  | .vobj fields => (lookupAssoc fields k).getD .vundefined
  | _ => .vundefined

/-- Metadata stored per alias in `$meta`: the `[source, symbol, value]`
triple registered by `$add`. -/
abbrev MetaVal := String × String × JSValue

/-- The `ImportMap` instance: `$meta` plus the per-alias data properties. -/
structure ImportMap where
  meta : List (String × MetaVal)
  props : List (String × JSValue)

/-- The `isSpecialMethod` guard: `ImportMap.prototype.hasOwnProperty(name)`,
i.e. the prototype's own properties. -/
def isSpecialMethod (name : String) : Bool :=
  name == "constructor" || name == "$add" || name == "$mock" || name == "$restore"

/-- Read the instance property for an alias (`this[alias]`). -/
def ImportMap.getProp (m : ImportMap) (a : String) : JSValue :=
  (lookupAssoc m.props a).getD .vundefined

/-- Write the instance property for an alias (`this[alias] = v`). -/
def ImportMap.setProp (m : ImportMap) (a : String) (v : JSValue) : ImportMap :=
  { m with props := setAssoc m.props a v }

/-- Write one value to a list of aliases (`aliases.forEach(a => this[a] = v)`). -/
def setProps (m : ImportMap) (aliases : List String) (v : JSValue) : ImportMap :=
  aliases.foldl (fun acc a => acc.setProp a v) m

/-- The loop body of `$restore`: walk the `$meta` entries, skipping aliases
that collide with the special methods, and reset each property to the
registered original value. -/
def restoreList (m : ImportMap) : List (String × MetaVal) → ImportMap
  | [] => m
  | e :: rest =>
    restoreList (if isSpecialMethod e.1 then m else m.setProp e.1 e.2.2.2) rest

/-- The `$restore()` method (no-argument form, from `src/helpers.js`). -/
def restoreAll (m : ImportMap) : ImportMap :=
  restoreList m m.meta

/-- The `ImportMap` constructor: store the metadata and materialize every
alias by calling `$restore`. -/
def ofMeta (imports : List (String × MetaVal)) : ImportMap :=
  restoreAll { meta := imports, props := [] }

/-- The `$add(alias, source, symbol, value)` method. -/
def addImport (m : ImportMap) (al source symbol : String) (value : JSValue) : ImportMap :=
  if isSpecialMethod al then m
  else { meta := setAssoc m.meta al (source, symbol, value),
         props := setAssoc m.props al value }

/-- Aliases registered as namespace imports of `source` (symbol `"*"`). -/
def nsAliases (meta : List (String × MetaVal)) (source : String) : List String :=
  (meta.filter fun e => e.2.1 == source && e.2.2.1 == "*").map Prod.fst

/-- Aliases registered as whole-module CommonJS imports of `source`
(symbol `"<CJS>"`). -/
def cjsAliases (meta : List (String × MetaVal)) (source : String) : List String :=
  (meta.filter fun e => e.2.1 == source && e.2.2.1 == "<CJS>").map Prod.fst

/-- Aliases registered for the named export `symbol` of `source`. -/
def namedAliases (meta : List (String × MetaVal)) (source symbol : String) : List String :=
  (meta.filter fun e => e.2.1 == source && e.2.2.1 == symbol).map Prod.fst

/-- The error message thrown by `$mock` for an unmatched path/symbol pair. -/
def errMsg (symbol source : String) : String :=
  "Module does not import \"" ++ symbol ++ "\" from \"" ++ source ++ "\""

/-- The function-shorthand normalization at the top of the per-source loop:
`if (typeof esImports === "function") esImports = { default: esImports }`. -/
def normalizeDesc (d : JSValue) : JSValue :=
  if isFunction d then .vobj [("default", d)] else d

/-- The named-symbol loop of `$mock` (`Object.keys(esImports).forEach`):
for each symbol, collect the matching aliases, throw if no alias matched in
any of the three categories, otherwise assign the symbol's mock value to all
matching aliases.  `nspace` and `cjs` are the alias lists computed before the
loop, captured by the closure. -/
def mockSymbols (m : ImportMap) (source : String) (esImports : JSValue)
    (nspace cjs : List String) : List String → ImportMap × Option String
  | [] => (m, none)
  | symbol :: rest =>
    let aliases := namedAliases m.meta source symbol
    if aliases.isEmpty && nspace.isEmpty && cjs.isEmpty then
      (m, some (errMsg symbol source))
    else
      mockSymbols (setProps m aliases (getKey esImports symbol)) source esImports nspace cjs rest

/-- One iteration of `$mock`'s per-source loop: normalize a function
description to `{default: fn}`, substitute namespace aliases with the
normalized description, CommonJS aliases with the original description, then
run the named-symbol loop. -/
def mockOne (m : ImportMap) (source : String) (sourceImports : JSValue) :
    ImportMap × Option String :=
  let esImports := normalizeDesc sourceImports
  let nspace := nsAliases m.meta source
  let cjs := cjsAliases m.meta source
  let m1 := setProps m nspace esImports
  let m2 := setProps m1 cjs sourceImports
  mockSymbols m2 source esImports nspace cjs (keysOf esImports)

/-- The `$mock` method applied to an object overlay
(`Object.keys(imports).forEach(source => ...)`).  A thrown error aborts the
remaining sources but keeps all property writes made so far, so the result is
the updated map together with the error, if any.  (The function-selector form
of `$mock`, which expands into an object overlay, is not needed by any claim
and is not modelled.) -/
def mockRun (m : ImportMap) : List (String × JSValue) → ImportMap × Option String
  | [] => (m, none)
  | (source, d) :: rest =>
    match mockOne m source d with
    | (m1, none) => mockRun m1 rest
    | (m1, some e) => (m1, some e)

/-- Leaf of a `$restore` selector: either the literal `true` or an object
with boolean leaves. -/
inductive SelVal where
  | selTrue
  | selObj (fields : List (String × Bool))

/-- Modelled from the spec: the selector test of `$restore`'s selective
form, which is exercised by `src/test/helpers-test.js` (`restores specified
modules/symbols if an argument is passed`) and recorded in the changelog
(1.7.0), but whose implementation is missing from `src/helpers.js` (its
`$restore` takes no argument).  Per the spec, an alias is restored iff
`selector[path] === true` or `selector[path][symbol] === true`. -/
def selMatches (sel : List (String × SelVal)) (source symbol : String) : Bool :=
  match lookupAssoc sel source with
  | none => false
  | some .selTrue => true
  | some (.selObj fields) => (lookupAssoc fields symbol).getD false

/-- Modelled from the spec: the selective form of `$restore` (missing from
`src/helpers.js`, see `selMatches`).  It walks `$meta` exactly like the
no-argument `$restore` in the source, skipping special-method aliases, but
resets only the aliases whose (path, symbol) pair the selector matches. -/
def restoreSelList (sel : List (String × SelVal)) (m : ImportMap) :
    List (String × MetaVal) → ImportMap
  | [] => m
  | e :: rest =>
    restoreSelList sel
      (if isSpecialMethod e.1 then m
       else if selMatches sel e.2.1 e.2.2.1 then m.setProp e.1 e.2.2.2 else m) rest

/-- Modelled from the spec: `$restore(selector)` (see `restoreSelList`). -/
def restoreSel (m : ImportMap) (sel : List (String × SelVal)) : ImportMap :=
  restoreSelList sel m m.meta

/-- Well-formedness of a registry as built by the generated code: alias keys
are distinct (JS object keys are unique) and, because `$add` refuses them, no
alias collides with a special method name. -/
abbrev WellFormed (m : ImportMap) : Prop :=
  (m.meta.map Prod.fst).Nodup ∧ ∀ e ∈ m.meta, isSpecialMethod e.1 = false

/-- A path/symbol pair matched by no registered alias in any of the three
category checks of `$mock`. -/
abbrev Unmatched (meta : List (String × MetaVal)) (source symbol : String) : Prop :=
  namedAliases meta source symbol = [] ∧ nsAliases meta source = [] ∧
    cjsAliases meta source = []

/-! ### Association list and property lemmas -/

theorem lookupAssoc_setAssoc {α : Type} (l : List (String × α)) (a : String) (v : α)
    (b : String) :
    lookupAssoc (setAssoc l a v) b = if a = b then some v else lookupAssoc l b := by
  induction l with
  | nil =>
    by_cases h : a = b <;> simp [setAssoc, lookupAssoc, h]
  | cons e rest ih =>
    obtain ⟨k, w⟩ := e
    simp only [setAssoc]
    by_cases hka : k = a
    · rw [if_pos (by simpa using hka)]
      subst hka
      by_cases hkb : k = b <;> simp [lookupAssoc, hkb]
    · rw [if_neg (by simpa using hka)]
      by_cases hkb : k = b
      · have hab : ¬ a = b := fun h => hka (h ▸ hkb)
        simp [lookupAssoc, hkb, hab]
      · simp [lookupAssoc, hkb, ih]

theorem mem_of_lookupAssoc {α : Type} {l : List (String × α)} {a : String} {x : α}
    (h : lookupAssoc l a = some x) : (a, x) ∈ l := by
  induction l with
  | nil => simp [lookupAssoc] at h
  | cons e rest ih =>
    by_cases hk : e.1 = a
    · obtain ⟨k, w⟩ := e
      simp [lookupAssoc, hk] at h
      simp_all
    · obtain ⟨k, w⟩ := e
      simp only [lookupAssoc] at h
      rw [if_neg (by simpa using hk)] at h
      exact List.mem_cons_of_mem _ (ih h)

theorem lookupAssoc_of_mem_nodup {α : Type} {l : List (String × α)} {a : String} {x : α}
    (hnd : (l.map Prod.fst).Nodup) (h : (a, x) ∈ l) : lookupAssoc l a = some x := by
  induction l with
  | nil => simp at h
  | cons e rest ih =>
    simp only [List.map_cons, List.nodup_cons] at hnd
    rcases List.mem_cons.mp h with h1 | h1
    · cases h1
      simp [lookupAssoc]
    · have hne : e.1 ≠ a := by
        intro he
        exact hnd.1 (he ▸ List.mem_map.mpr ⟨(a, x), h1, rfl⟩)
      simp only [lookupAssoc]
      rw [if_neg (by simpa using hne)]
      exact ih hnd.2 h1

theorem getProp_setProp (m : ImportMap) (a : String) (v : JSValue) (b : String) :
    (m.setProp a v).getProp b = if a = b then v else m.getProp b := by
  unfold ImportMap.getProp ImportMap.setProp
  rw [lookupAssoc_setAssoc]
  by_cases h : a = b <;> simp [h]

theorem setProp_meta (m : ImportMap) (a : String) (v : JSValue) :
    (m.setProp a v).meta = m.meta := rfl

theorem setProps_cons (m : ImportMap) (a : String) (as : List String) (v : JSValue) :
    setProps m (a :: as) v = setProps (m.setProp a v) as v := rfl

theorem setProps_meta (m : ImportMap) (as : List String) (v : JSValue) :
    (setProps m as v).meta = m.meta := by
  induction as generalizing m with
  | nil => rfl
  | cons a as ih => rw [setProps_cons, ih, setProp_meta]

theorem getProp_setProps (m : ImportMap) (as : List String) (v : JSValue) (b : String) :
    (setProps m as v).getProp b = if b ∈ as then v else m.getProp b := by
  induction as generalizing m with
  | nil => simp [setProps]
  | cons a as ih =>
    rw [setProps_cons, ih, getProp_setProp]
    by_cases h1 : b ∈ as
    · simp [h1, List.mem_cons]
    · by_cases h2 : a = b
      · simp [h1, h2, List.mem_cons]
      · have h3 : ¬ b = a := fun h => h2 h.symm
        simp [h1, h2, h3, List.mem_cons]

/-! ### Restore lemmas -/

theorem restoreList_meta (m : ImportMap) (l : List (String × MetaVal)) :
    (restoreList m l).meta = m.meta := by
  induction l generalizing m with
  | nil => rfl
  | cons e rest ih =>
    show (restoreList _ rest).meta = m.meta
    rw [ih]
    by_cases h : isSpecialMethod e.1 <;> simp [h, setProp_meta]

theorem restoreAll_meta (m : ImportMap) : (restoreAll m).meta = m.meta :=
  restoreList_meta m m.meta

theorem getProp_restoreList_not_mem {m : ImportMap} {l : List (String × MetaVal)}
    {b : String} (h : b ∉ l.map Prod.fst) :
    (restoreList m l).getProp b = m.getProp b := by
  induction l generalizing m with
  | nil => rfl
  | cons e rest ih =>
    simp only [List.map_cons, List.mem_cons] at h
    push_neg at h
    show (restoreList _ rest).getProp b = m.getProp b
    rw [ih h.2]
    by_cases hs : isSpecialMethod e.1
    · simp [hs]
    · simp [hs, getProp_setProp, h.1.symm]

theorem getProp_restoreList {l : List (String × MetaVal)} (hnd : (l.map Prod.fst).Nodup)
    (m : ImportMap) (b : String) :
    (restoreList m l).getProp b =
      match lookupAssoc l b with
      | some x => if isSpecialMethod b then m.getProp b else x.2.2
      | none => m.getProp b := by
  induction l generalizing m with
  | nil => rfl
  | cons e rest ih =>
    simp only [List.map_cons, List.nodup_cons] at hnd
    by_cases hb : e.1 = b
    · subst hb
      have hnm : e.1 ∉ rest.map Prod.fst := hnd.1
      show (restoreList _ rest).getProp e.1 = _
      rw [getProp_restoreList_not_mem hnm]
      by_cases hs : isSpecialMethod e.1 <;>
        simp [lookupAssoc, hs, getProp_setProp]
    · show (restoreList _ rest).getProp b = _
      rw [ih hnd.2]
      have hlook : lookupAssoc (e :: rest) b = lookupAssoc rest b := by
        simp only [lookupAssoc]
        rw [if_neg (by simpa using hb)]
      rw [hlook]
      by_cases hs : isSpecialMethod e.1
      · simp [hs]
      · have hgp : (m.setProp e.1 e.2.2.2).getProp b = m.getProp b := by
          rw [getProp_setProp, if_neg hb]
        simp only [hs, if_false, Bool.false_eq_true]
        cases hcase : lookupAssoc rest b <;> simp [hgp]

theorem getProp_restoreAll {m : ImportMap} (hw : WellFormed m) (b : String) :
    (restoreAll m).getProp b =
      match lookupAssoc m.meta b with
      | some x => x.2.2
      | none => m.getProp b := by
  rw [restoreAll, getProp_restoreList hw.1]
  cases hl : lookupAssoc m.meta b with
  | none => rfl
  | some x =>
    have hmem := mem_of_lookupAssoc hl
    have hns : isSpecialMethod b = false := hw.2 _ hmem
    simp [hns]

theorem restoreAll_idem_getProp {m : ImportMap} (hw : WellFormed m) (b : String) :
    (restoreAll (restoreAll m)).getProp b = (restoreAll m).getProp b := by
  have hw2 : WellFormed (restoreAll m) := by
    unfold WellFormed
    rw [restoreAll_meta]
    exact hw
  rw [getProp_restoreAll hw2, getProp_restoreAll hw, restoreAll_meta]
  cases hl : lookupAssoc m.meta b with
  | none => simp [getProp_restoreAll hw, hl]
  | some x => simp

/-! ### Selective restore lemmas -/

theorem restoreSelList_meta (sel : List (String × SelVal)) (m : ImportMap)
    (l : List (String × MetaVal)) : (restoreSelList sel m l).meta = m.meta := by
  induction l generalizing m with
  | nil => rfl
  | cons e rest ih =>
    show (restoreSelList sel _ rest).meta = m.meta
    rw [ih]
    by_cases h1 : isSpecialMethod e.1
    · simp [h1]
    · by_cases h2 : selMatches sel e.2.1 e.2.2.1 <;> simp [h1, h2, setProp_meta]

theorem getProp_restoreSelList_not_mem {sel : List (String × SelVal)} {m : ImportMap}
    {l : List (String × MetaVal)} {b : String} (h : b ∉ l.map Prod.fst) :
    (restoreSelList sel m l).getProp b = m.getProp b := by
  induction l generalizing m with
  | nil => rfl
  | cons e rest ih =>
    simp only [List.map_cons, List.mem_cons] at h
    push_neg at h
    show (restoreSelList sel _ rest).getProp b = m.getProp b
    rw [ih h.2]
    by_cases h1 : isSpecialMethod e.1
    · simp [h1]
    · by_cases h2 : selMatches sel e.2.1 e.2.2.1 <;>
        simp [h1, h2, getProp_setProp, h.1.symm]

theorem getProp_restoreSelList {sel : List (String × SelVal)}
    {l : List (String × MetaVal)} (hnd : (l.map Prod.fst).Nodup) (m : ImportMap)
    (b : String) :
    (restoreSelList sel m l).getProp b =
      match lookupAssoc l b with
      | some x =>
        if isSpecialMethod b = false ∧ selMatches sel x.1 x.2.1 then x.2.2
        else m.getProp b
      | none => m.getProp b := by
  induction l generalizing m with
  | nil => rfl
  | cons e rest ih =>
    simp only [List.map_cons, List.nodup_cons] at hnd
    by_cases hb : e.1 = b
    · subst hb
      show (restoreSelList sel _ rest).getProp e.1 = _
      rw [getProp_restoreSelList_not_mem hnd.1]
      by_cases hs : isSpecialMethod e.1
      · simp [lookupAssoc, hs]
      · by_cases hm : selMatches sel e.2.1 e.2.2.1 <;>
          simp [lookupAssoc, hs, hm, getProp_setProp]
    · show (restoreSelList sel _ rest).getProp b = _
      rw [ih hnd.2]
      have hlook : lookupAssoc (e :: rest) b = lookupAssoc rest b := by
        simp only [lookupAssoc]
        rw [if_neg (by simpa using hb)]
      rw [hlook]
      by_cases hs : isSpecialMethod e.1
      · simp [hs]
      · by_cases hm : selMatches sel e.2.1 e.2.2.1
        · have hgp : (m.setProp e.1 e.2.2.2).getProp b = m.getProp b := by
            rw [getProp_setProp, if_neg hb]
          cases hcase : lookupAssoc rest b <;> simp [hs, hm, hgp]
        · simp [hs, hm]

/-! ### Alias-category lemmas -/

theorem mem_namedAliases {meta : List (String × MetaVal)} {a source symbol : String} :
    a ∈ namedAliases meta source symbol ↔ ∃ v, (a, (source, symbol, v)) ∈ meta := by
  unfold namedAliases
  constructor
  · intro h
    obtain ⟨e, he, rfl⟩ := List.mem_map.mp h
    obtain ⟨hmem, hcond⟩ := List.mem_filter.mp he
    obtain ⟨a0, s0, y0, v0⟩ := e
    simp only [Bool.and_eq_true, beq_iff_eq] at hcond
    exact ⟨v0, by simpa [hcond.1, hcond.2] using hmem⟩
  · rintro ⟨v, hv⟩
    exact List.mem_map.mpr ⟨(a, (source, symbol, v)),
      List.mem_filter.mpr ⟨hv, by simp⟩, rfl⟩

theorem nsAliases_eq (meta : List (String × MetaVal)) (source : String) :
    nsAliases meta source = namedAliases meta source "*" := rfl

theorem cjsAliases_eq (meta : List (String × MetaVal)) (source : String) :
    cjsAliases meta source = namedAliases meta source "<CJS>" := rfl

theorem not_mem_namedAliases_of_lookup {meta : List (String × MetaVal)}
    {a s y : String} {v : JSValue} (hnd : (meta.map Prod.fst).Nodup)
    (hl : lookupAssoc meta a = some (s, y, v)) {s' y' : String}
    (hne : ¬ (s' = s ∧ y' = y)) : a ∉ namedAliases meta s' y' := by
  intro hmem
  obtain ⟨w, hw⟩ := mem_namedAliases.mp hmem
  have := lookupAssoc_of_mem_nodup hnd hw
  rw [hl] at this
  injection this with h2
  exact hne ⟨(congrArg Prod.fst h2).symm, (congrArg (fun p => p.2.1) h2).symm⟩

/-! ### Mock lemmas -/

theorem mockSymbols_meta (source : String) (es : JSValue) (nspace cjs : List String)
    (syms : List String) (m : ImportMap) :
    (mockSymbols m source es nspace cjs syms).1.meta = m.meta := by
  induction syms generalizing m with
  | nil => rfl
  | cons symbol rest ih =>
    show (if _ then _ else mockSymbols _ source es nspace cjs rest).1.meta = m.meta
    by_cases h : (namedAliases m.meta source symbol).isEmpty && nspace.isEmpty && cjs.isEmpty
    · simp [h]
    · simp only [h, if_false, Bool.false_eq_true]
      rw [ih, setProps_meta]

theorem mockOne_meta (m : ImportMap) (source : String) (d : JSValue) :
    (mockOne m source d).1.meta = m.meta := by
  unfold mockOne
  rw [mockSymbols_meta, setProps_meta, setProps_meta]

theorem mockRun_meta (ov : List (String × JSValue)) (m : ImportMap) :
    (mockRun m ov).1.meta = m.meta := by
  induction ov generalizing m with
  | nil => rfl
  | cons p rest ih =>
    obtain ⟨source, d⟩ := p
    show (match mockOne m source d with
      | (m1, none) => mockRun m1 rest
      | (m1, some e) => (m1, some e)).1.meta = m.meta
    cases hm : mockOne m source d with
    | mk m1 err =>
      cases err with
      | none =>
        have h1 : m1.meta = m.meta := by
          have := mockOne_meta m source d
          rw [hm] at this
          exact this
        simpa [ih] using h1
      | some e =>
        have h1 : m1.meta = m.meta := by
          have := mockOne_meta m source d
          rw [hm] at this
          exact this
        simpa using h1

theorem unmatched_cond {m : ImportMap} {source symbol : String}
    (hns : nspace = nsAliases m.meta source) (hcjs : cjs = cjsAliases m.meta source) :
    ((namedAliases m.meta source symbol).isEmpty && nspace.isEmpty && cjs.isEmpty) = true
      ↔ Unmatched m.meta source symbol := by
  subst hns hcjs
  unfold Unmatched
  simp [List.isEmpty_iff, and_assoc]

theorem mockSymbols_getProp_not_mem {source : String} {es : JSValue}
    {nspace cjs : List String} {syms : List String} {m : ImportMap} {b : String}
    (h : ∀ sym ∈ syms, b ∉ namedAliases m.meta source sym) :
    (mockSymbols m source es nspace cjs syms).1.getProp b = m.getProp b := by
  induction syms generalizing m with
  | nil => rfl
  | cons symbol rest ih =>
    show (if _ then _ else mockSymbols _ source es nspace cjs rest).1.getProp b = _
    by_cases hc : (namedAliases m.meta source symbol).isEmpty && nspace.isEmpty && cjs.isEmpty
    · simp [hc]
    · simp only [hc, if_false, Bool.false_eq_true]
      have hmeta : (setProps m (namedAliases m.meta source symbol) (getKey es symbol)).meta
          = m.meta := setProps_meta _ _ _
      rw [ih (fun sym hs => by rw [hmeta]; exact h sym (List.mem_cons_of_mem _ hs))]
      rw [getProp_setProps, if_neg (h symbol (List.mem_cons_self _ _))]

theorem mockSymbols_error {source : String} {es : JSValue} {nspace cjs : List String}
    (syms : List String) (m : ImportMap)
    (hns : nspace = nsAliases m.meta source) (hcjs : cjs = cjsAliases m.meta source)
    (h : ∃ sym ∈ syms, Unmatched m.meta source sym) :
    ∃ sym ∈ syms, Unmatched m.meta source sym ∧
      (mockSymbols m source es nspace cjs syms).2 = some (errMsg sym source) := by
  induction syms generalizing m with
  | nil => simp at h
  | cons symbol rest ih =>
    by_cases hc : (namedAliases m.meta source symbol).isEmpty && nspace.isEmpty && cjs.isEmpty
    · refine ⟨symbol, List.mem_cons_self _ _, ?_, ?_⟩
      · exact (unmatched_cond hns hcjs).mp hc
      · simp [mockSymbols, hc]
    · have hnu : ¬ Unmatched m.meta source symbol := fun hu =>
        hc ((unmatched_cond hns hcjs).mpr hu)
      obtain ⟨sym, hsym, hu⟩ := h
      have hsym' : sym ∈ rest := by
        rcases List.mem_cons.mp hsym with h1 | h1
        · exact absurd (h1 ▸ hu) hnu
        · exact h1
      have hmeta : (setProps m (namedAliases m.meta source symbol) (getKey es symbol)).meta
          = m.meta := setProps_meta _ _ _
      obtain ⟨sym2, hs2, hu2, herr⟩ := ih
        (setProps m (namedAliases m.meta source symbol) (getKey es symbol))
        (by rw [hmeta]; exact hns) (by rw [hmeta]; exact hcjs)
        ⟨sym, hsym', by rw [hmeta]; exact hu⟩
      rw [hmeta] at hu2
      refine ⟨sym2, List.mem_cons_of_mem _ hs2, hu2, ?_⟩
      simp only [mockSymbols, hc, if_false, Bool.false_eq_true]
      exact herr

theorem mockSymbols_ok {source : String} {es : JSValue} {nspace cjs : List String}
    (syms : List String) (m : ImportMap)
    (hns : nspace = nsAliases m.meta source) (hcjs : cjs = cjsAliases m.meta source)
    (h : ∀ sym ∈ syms, ¬ Unmatched m.meta source sym) :
    (mockSymbols m source es nspace cjs syms).2 = none := by
  induction syms generalizing m with
  | nil => rfl
  | cons symbol rest ih =>
    show (if _ then _ else mockSymbols _ source es nspace cjs rest).2 = none
    by_cases hc : (namedAliases m.meta source symbol).isEmpty && nspace.isEmpty && cjs.isEmpty
    · exact absurd ((unmatched_cond hns hcjs).mp hc) (h symbol (List.mem_cons_self _ _))
    · simp only [hc, if_false, Bool.false_eq_true]
      have hmeta : (setProps m (namedAliases m.meta source symbol) (getKey es symbol)).meta
          = m.meta := setProps_meta _ _ _
      exact ih _ (by rw [hmeta]; exact hns) (by rw [hmeta]; exact hcjs)
        (fun sym hs => by rw [hmeta]; exact h sym (List.mem_cons_of_mem _ hs))

theorem mockOne_error {m : ImportMap} {source : String} {d : JSValue}
    (h : ∃ sym ∈ keysOf (normalizeDesc d), Unmatched m.meta source sym) :
    ∃ sym ∈ keysOf (normalizeDesc d), Unmatched m.meta source sym ∧
      (mockOne m source d).2 = some (errMsg sym source) := by
  unfold mockOne
  have hmeta : (setProps (setProps m (nsAliases m.meta source) (normalizeDesc d))
      (cjsAliases m.meta source) d).meta = m.meta := by
    rw [setProps_meta, setProps_meta]
  obtain ⟨sym, hs, hu, herr⟩ := mockSymbols_error (keysOf (normalizeDesc d)) _
    (by rw [hmeta]) (by rw [hmeta]) ⟨h.choose, h.choose_spec.1, by
      rw [hmeta]; exact h.choose_spec.2⟩
  rw [hmeta] at hu
  exact ⟨sym, hs, hu, herr⟩

theorem mockOne_ok {m : ImportMap} {source : String} {d : JSValue}
    (h : ∀ sym ∈ keysOf (normalizeDesc d), ¬ Unmatched m.meta source sym) :
    (mockOne m source d).2 = none := by
  unfold mockOne
  have hmeta : (setProps (setProps m (nsAliases m.meta source) (normalizeDesc d))
      (cjsAliases m.meta source) d).meta = m.meta := by
    rw [setProps_meta, setProps_meta]
  exact mockSymbols_ok _ _ (by rw [hmeta]) (by rw [hmeta])
    (fun sym hs => by rw [hmeta]; exact h sym hs)

theorem mockRun_single_fst (m : ImportMap) (P : String) (d : JSValue) :
    (mockRun m [(P, d)]).1 = (mockOne m P d).1 := by
  cases hmo : mockOne m P d with
  | mk m1 err => cases err <;> simp [mockRun, hmo]

/-! ### Claim C1 -/

/-- Claim C1: for every call to `$mock` with an object overlay, if some
exported-symbol key listed under a path of the overlay matches zero registered
aliases across the namespace check, the CommonJS whole-module check and the
named-symbol check, then the call throws, and the error message names an
unmatched path and symbol of the overlay (the first one encountered in
iteration order; when there is exactly one unmatched pair, it is that pair).
The statement quantifies over arbitrary registries and overlays, so it covers
calls in which other symbols did match. -/
theorem c1_mock_unmatched_symbol_throws (m : ImportMap) (ov : List (String × JSValue))
    (h : ∃ p ∈ ov, ∃ sym ∈ keysOf (normalizeDesc p.2), Unmatched m.meta p.1 sym) :
    ∃ p ∈ ov, ∃ sym ∈ keysOf (normalizeDesc p.2), Unmatched m.meta p.1 sym ∧
      (mockRun m ov).2 = some (errMsg sym p.1) := by
  induction ov generalizing m with
  | nil => simp at h
  | cons q rest ih =>
    obtain ⟨source, d⟩ := q
    by_cases hhead : ∃ sym ∈ keysOf (normalizeDesc d), Unmatched m.meta source sym
    · obtain ⟨sym, hs, hu, herr⟩ := mockOne_error hhead
      refine ⟨(source, d), List.mem_cons_self _ _, sym, hs, hu, ?_⟩
      cases hmo : mockOne m source d with
      | mk m1 err =>
        have herr2 : err = some (errMsg sym source) := by rw [hmo] at herr; exact herr
        subst herr2
        simp [mockRun, hmo]
    · push_neg at hhead
      have hok : (mockOne m source d).2 = none := mockOne_ok hhead
      obtain ⟨p, hp, sym, hs, hu⟩ := h
      have hp' : p ∈ rest := by
        rcases List.mem_cons.mp hp with h1 | h1
        · subst h1
          exact absurd hu (hhead sym hs)
        · exact h1
      cases hmo : mockOne m source d with
      | mk m1 err =>
        have hnone : err = none := by rw [hmo] at hok; exact hok
        subst hnone
        have hm1 : m1.meta = m.meta := by
          have := mockOne_meta m source d
          rw [hmo] at this
          exact this
        obtain ⟨p2, hp2, sym2, hs2, hu2, herr2⟩ :=
          ih m1 ⟨p, hp', sym, hs, by rw [hm1]; exact hu⟩
        rw [hm1] at hu2
        refine ⟨p2, List.mem_cons_of_mem _ hp2, sym2, hs2, hu2, ?_⟩
        rw [show (mockRun m ((source, d) :: rest)).2 = (mockRun m1 rest).2 by
          simp [mockRun, hmo]]
        exact herr2

/-- Witness for C1: a registry importing only `foo` from `a-module`; the
overlay mocks `foo` (which matches) together with `bar` (which matches
nothing), and the call reports `bar` from `a-module`. -/
theorem c1_witness :
    ∃ p ∈ [("a-module", JSValue.vobj [("foo", .vnum 2), ("bar", .vnum 3)])],
      ∃ sym ∈ keysOf (normalizeDesc p.2),
        Unmatched (ofMeta [("foo", ("a-module", "foo", JSValue.vnum 1))]).meta p.1 sym ∧
          (mockRun (ofMeta [("foo", ("a-module", "foo", JSValue.vnum 1))])
            [("a-module", JSValue.vobj [("foo", .vnum 2), ("bar", .vnum 3)])]).2
            = some (errMsg sym p.1) :=
  c1_mock_unmatched_symbol_throws _ _
    ⟨("a-module", JSValue.vobj [("foo", .vnum 2), ("bar", .vnum 3)]),
      List.Mem.head _, "bar", List.Mem.tail _ (List.Mem.head _), ⟨rfl, rfl, rfl⟩⟩

/-! ### Claim C2 -/

theorem mockRun_singleNamed {m : ImportMap} {a P S : String} {V0 V : JSValue}
    (hl : lookupAssoc m.meta a = some (P, S, V0)) :
    (mockRun m [(P, .vobj [(S, V)])]).1.getProp a = V ∧
      (mockRun m [(P, .vobj [(S, V)])]).2 = none := by
  have amem := mem_of_lookupAssoc hl
  have ha : a ∈ namedAliases m.meta P S := mem_namedAliases.mpr ⟨V0, amem⟩
  have h1 : mockOne m P (.vobj [(S, V)]) =
      mockSymbols (setProps (setProps m (nsAliases m.meta P) (.vobj [(S, V)]))
        (cjsAliases m.meta P) (.vobj [(S, V)]))
        P (.vobj [(S, V)]) (nsAliases m.meta P) (cjsAliases m.meta P) [S] := rfl
  set m2 := setProps (setProps m (nsAliases m.meta P) (JSValue.vobj [(S, V)]))
    (cjsAliases m.meta P) (.vobj [(S, V)]) with hm2d
  have hmeta2 : m2.meta = m.meta := by
    rw [hm2d, setProps_meta, setProps_meta]
  have hne : (namedAliases m2.meta P S).isEmpty = false := by
    rw [hmeta2]
    cases hcc : namedAliases m.meta P S with
    | nil => rw [hcc] at ha; cases ha
    | cons x xs => rfl
  have hcond : ((namedAliases m2.meta P S).isEmpty
      && (nsAliases m.meta P).isEmpty && (cjsAliases m.meta P).isEmpty) = false := by
    simp [hne]
  have hgk : getKey (JSValue.vobj [(S, V)]) S = V := by
    simp [getKey, lookupAssoc]
  have h2 : mockSymbols m2 P (.vobj [(S, V)]) (nsAliases m.meta P)
      (cjsAliases m.meta P) [S]
      = (setProps m2 (namedAliases m2.meta P S) V, none) := by
    simp only [mockSymbols, hcond, Bool.false_eq_true, if_false, hgk]
  have hrun : mockRun m [(P, JSValue.vobj [(S, V)])]
      = (setProps m2 (namedAliases m2.meta P S) V, none) := by
    show (match mockOne m P (.vobj [(S, V)]) with
      | (m1, none) => mockRun m1 []
      | (m1, some e) => (m1, some e)) = _
    rw [h1, h2]
    rfl
  rw [hrun]
  refine ⟨?_, rfl⟩
  rw [getProp_setProps, hmeta2, if_pos ha]

/-- Claim C2: round trip on the registry.  For a registry with a registered
alias `a` for `(P, S)` whose original value is `V0`, `$mock({P: {S: V}})`
succeeds and reading the alias yields `V`; a subsequent no-argument
`$restore` yields `V0` again; `$restore` is idempotent (calling it twice in
a row changes no alias's property) and is a no-op on a freshly constructed
registry with no active mock.  (`$restore` is a total function of the model,
so it never errors.) -/
theorem c2_mock_restore_round_trip (m : ImportMap) (a P S : String) (V0 V : JSValue)
    (hw : WellFormed m) (hl : lookupAssoc m.meta a = some (P, S, V0)) :
    (mockRun m [(P, .vobj [(S, V)])]).2 = none ∧
    (mockRun m [(P, .vobj [(S, V)])]).1.getProp a = V ∧
    (restoreAll (mockRun m [(P, .vobj [(S, V)])]).1).getProp a = V0 ∧
    (∀ b, (restoreAll (restoreAll (mockRun m [(P, .vobj [(S, V)])]).1)).getProp b
        = (restoreAll (mockRun m [(P, .vobj [(S, V)])]).1).getProp b) ∧
    (∀ b, (restoreAll (ofMeta m.meta)).getProp b = (ofMeta m.meta).getProp b) := by
  obtain ⟨hv, hnone⟩ := @mockRun_singleNamed m a P S V0 V hl
  have hrm : (mockRun m [(P, .vobj [(S, V)])]).1.meta = m.meta := mockRun_meta _ m
  have hwr : WellFormed (mockRun m [(P, .vobj [(S, V)])]).1 := by
    rw [WellFormed, hrm]
    exact hw
  refine ⟨hnone, hv, ?_, ?_, ?_⟩
  · rw [getProp_restoreAll hwr, hrm, hl]
  · intro b
    exact restoreAll_idem_getProp hwr b
  · intro b
    have hwb : WellFormed (ImportMap.mk m.meta []) := hw
    exact restoreAll_idem_getProp hwb b

/-- Witness for C2 at a concrete registry: alias `id` imports `s` from `p`
with original value `0`; mocking with `7`, reading, restoring and re-reading
behave as claim C2 states. -/
theorem c2_witness :
    (mockRun (ofMeta [("id", ("p", "s", JSValue.vnum 0))]) [("p", .vobj [("s", .vnum 7)])]).2
        = none ∧
    (mockRun (ofMeta [("id", ("p", "s", JSValue.vnum 0))]) [("p", .vobj [("s", .vnum 7)])]).1.getProp "id"
        = .vnum 7 ∧
    (restoreAll (mockRun (ofMeta [("id", ("p", "s", JSValue.vnum 0))])
        [("p", .vobj [("s", .vnum 7)])]).1).getProp "id" = .vnum 0 ∧
    (∀ b, (restoreAll (restoreAll (mockRun (ofMeta [("id", ("p", "s", JSValue.vnum 0))])
        [("p", .vobj [("s", .vnum 7)])]).1)).getProp b
      = (restoreAll (mockRun (ofMeta [("id", ("p", "s", JSValue.vnum 0))])
        [("p", .vobj [("s", .vnum 7)])]).1).getProp b) ∧
    (∀ b, (restoreAll (ofMeta (ofMeta [("id", ("p", "s", JSValue.vnum 0))]).meta)).getProp b
      = (ofMeta (ofMeta [("id", ("p", "s", JSValue.vnum 0))]).meta).getProp b) :=
  c2_mock_restore_round_trip (ofMeta [("id", ("p", "s", JSValue.vnum 0))])
    "id" "p" "s" (.vnum 0) (.vnum 7) ⟨by decide, by decide⟩ rfl

/-! ### Claim C3 -/

/-- Claim C3 (spec-modelled, see `restoreSel`): selective restore.  With the
selector `{P1: true}`, exactly the aliases whose originating path is `P1` are
reset to their original values and every other alias keeps its current
(possibly mocked) value; with `{P1: {S: true}}`, exactly the aliases
registered with `(P1, S)` are reset.  Instantiating the two quantified parts
at two mocked aliases from different paths gives the claim's scenario. -/
theorem c3_selective_restore (m : ImportMap) (hw : WellFormed m) (P1 : String) :
    (∀ a s y v, lookupAssoc m.meta a = some (s, y, v) →
      (restoreSel m [(P1, .selTrue)]).getProp a = if s = P1 then v else m.getProp a) ∧
    (∀ S a s y v, lookupAssoc m.meta a = some (s, y, v) →
      (restoreSel m [(P1, .selObj [(S, true)])]).getProp a =
        if s = P1 ∧ y = S then v else m.getProp a) := by
  have hchar := fun sel => @getProp_restoreSelList sel m.meta hw.1 m
  constructor
  · intro a s y v hl
    have hns : isSpecialMethod a = false := hw.2 _ (mem_of_lookupAssoc hl)
    rw [restoreSel, hchar _ a, hl]
    have hmatch : selMatches [(P1, .selTrue)] s y = (if P1 = s then true else false) := by
      by_cases hp : P1 = s <;> simp [selMatches, lookupAssoc, hp]
    show (if isSpecialMethod a = false ∧ selMatches [(P1, .selTrue)] s y = true then v
      else m.getProp a) = if s = P1 then v else m.getProp a
    by_cases hp : s = P1
    · have hsm : selMatches [(P1, .selTrue)] s y = true := by
        rw [hmatch, if_pos hp.symm]
      rw [hns, hsm, if_pos ⟨rfl, rfl⟩, if_pos hp]
    · have hsm : selMatches [(P1, .selTrue)] s y = false := by
        rw [hmatch, if_neg (fun h => hp h.symm)]
      rw [hns, hsm, if_neg (by simp), if_neg hp]
  · intro S a s y v hl
    have hns : isSpecialMethod a = false := hw.2 _ (mem_of_lookupAssoc hl)
    rw [restoreSel, hchar _ a, hl]
    have hmatch : selMatches [(P1, .selObj [(S, true)])] s y
        = (if P1 = s then (if S = y then true else false) else false) := by
      by_cases hp : P1 = s
      · by_cases hsy : S = y <;> simp [selMatches, lookupAssoc, hp, hsy]
      · simp [selMatches, lookupAssoc, hp]
    show (if isSpecialMethod a = false ∧ selMatches [(P1, .selObj [(S, true)])] s y = true
      then v else m.getProp a) = if s = P1 ∧ y = S then v else m.getProp a
    by_cases hp : s = P1
    · by_cases hsy : y = S
      · have hsm : selMatches [(P1, .selObj [(S, true)])] s y = true := by
          rw [hmatch, if_pos hp.symm, if_pos hsy.symm]
        rw [hns, hsm, if_pos ⟨rfl, rfl⟩, if_pos ⟨hp, hsy⟩]
      · have hsm : selMatches [(P1, .selObj [(S, true)])] s y = false := by
          rw [hmatch, if_pos hp.symm, if_neg (fun h => hsy h.symm)]
        rw [hns, hsm, if_neg (by simp), if_neg (fun h => hsy h.2)]
    · have hsm : selMatches [(P1, .selObj [(S, true)])] s y = false := by
        rw [hmatch, if_neg (fun h => hp h.symm)]
      rw [hns, hsm, if_neg (by simp), if_neg (fun h => hp h.1)]

/-- Witness for C3: a registry with aliases `a1` (from `p1`) and `a2` (from
`p2`), both currently mocked (`11`, `22` instead of the originals `1`, `2`).
`$restore({p1: true})` resets `a1` to `1` and leaves `a2` at `22`;
`$restore({p1: {s1: true}})` does the same. -/
theorem c3_witness :
    (restoreSel ⟨[("a1", ("p1", "s1", JSValue.vnum 1)), ("a2", ("p2", "s2", JSValue.vnum 2))],
        [("a1", JSValue.vnum 11), ("a2", JSValue.vnum 22)]⟩
        [("p1", .selTrue)]).getProp "a1" = .vnum 1 ∧
    (restoreSel ⟨[("a1", ("p1", "s1", JSValue.vnum 1)), ("a2", ("p2", "s2", JSValue.vnum 2))],
        [("a1", JSValue.vnum 11), ("a2", JSValue.vnum 22)]⟩
        [("p1", .selTrue)]).getProp "a2" = .vnum 22 ∧
    (restoreSel ⟨[("a1", ("p1", "s1", JSValue.vnum 1)), ("a2", ("p2", "s2", JSValue.vnum 2))],
        [("a1", JSValue.vnum 11), ("a2", JSValue.vnum 22)]⟩
        [("p1", .selObj [("s1", true)])]).getProp "a1" = .vnum 1 ∧
    (restoreSel ⟨[("a1", ("p1", "s1", JSValue.vnum 1)), ("a2", ("p2", "s2", JSValue.vnum 2))],
        [("a1", JSValue.vnum 11), ("a2", JSValue.vnum 22)]⟩
        [("p1", .selObj [("s1", true)])]).getProp "a2" = .vnum 22 := by
  have h := c3_selective_restore
    ⟨[("a1", ("p1", "s1", JSValue.vnum 1)), ("a2", ("p2", "s2", JSValue.vnum 2))],
      [("a1", JSValue.vnum 11), ("a2", JSValue.vnum 22)]⟩ ⟨by decide, by decide⟩ "p1"
  refine ⟨?_, ?_, ?_, ?_⟩
  · simpa using h.1 "a1" "p1" "s1" (.vnum 1) rfl
  · simpa using h.1 "a2" "p2" "s2" (.vnum 2) rfl
  · simpa using h.2 "s1" "a1" "p1" "s1" (.vnum 1) rfl
  · simpa using h.2 "s1" "a2" "p2" "s2" (.vnum 2) rfl

/-! ### Claim C6 -/

theorem mockRun_single_snd (m : ImportMap) (P : String) (d : JSValue) :
    (mockRun m [(P, d)]).2 = (mockOne m P d).2 := by
  cases hmo : mockOne m P d with
  | mk m1 err => cases err <;> simp [mockRun, hmo]

theorem mockSymbols_single (m : ImportMap) (source : String) (es : JSValue)
    (ns cjs : List String) (sym : String) :
    mockSymbols m source es ns cjs [sym] =
      if ((namedAliases m.meta source sym).isEmpty && ns.isEmpty && cjs.isEmpty) = true
      then (m, some (errMsg sym source))
      else (setProps m (namedAliases m.meta source sym) (getKey es sym), none) := by
  by_cases hc : ((namedAliases m.meta source sym).isEmpty && ns.isEmpty && cjs.isEmpty) = true
  · simp [mockSymbols, hc]
  · simp [mockSymbols, hc]

theorem mockOne_unfold (m : ImportMap) (P : String) (d : JSValue) :
    mockOne m P d =
      mockSymbols (setProps (setProps m (nsAliases m.meta P) (normalizeDesc d))
          (cjsAliases m.meta P) d)
        P (normalizeDesc d) (nsAliases m.meta P) (cjsAliases m.meta P)
        (keysOf (normalizeDesc d)) := rfl

/-- Claim C6 (amended): the function shorthand `$mock({P: f})` is normalized
to `{default: f}` for the namespace pass and the named-symbol pass — the call
errors in exactly the same situations with the same message, and every alias
whose registered symbol is not `"<CJS>"` receives the same value as with
`$mock({P: {default: f}})` — but the CommonJS pass uses the original
description, so a `"<CJS>"` alias receives the function itself rather than
the wrapper object.  A namespace alias of a matching path receives the whole
(normalized) description and a CommonJS alias the whole original description,
provided the description has no key equal to the alias's own sentinel symbol
(`"*"` resp. `"<CJS>"`); such a key would be processed by the later
named-symbol pass, which overwrites the alias with that key's value. -/
theorem c6_function_shorthand_amended (m : ImportMap) (hw : WellFormed m) (P : String) :
    (∀ k : Nat,
      (mockRun m [(P, .vfn k)]).2 = (mockRun m [(P, .vobj [("default", .vfn k)])]).2 ∧
      (∀ a s y v, lookupAssoc m.meta a = some (s, y, v) → y ≠ "<CJS>" →
        (mockRun m [(P, .vfn k)]).1.getProp a
          = (mockRun m [(P, .vobj [("default", .vfn k)])]).1.getProp a)) ∧
    (∀ d a v, "*" ∉ keysOf (normalizeDesc d) → lookupAssoc m.meta a = some (P, "*", v) →
      (mockRun m [(P, d)]).1.getProp a = normalizeDesc d) ∧
    (∀ d a v, "<CJS>" ∉ keysOf (normalizeDesc d) → lookupAssoc m.meta a = some (P, "<CJS>", v) →
      (mockRun m [(P, d)]).1.getProp a = d) := by
  refine ⟨?_, ?_, ?_⟩
  · intro k
    have hnorm1 : normalizeDesc (.vfn k) = JSValue.vobj [("default", .vfn k)] := rfl
    have hnorm2 : normalizeDesc (.vobj [("default", .vfn k)])
        = JSValue.vobj [("default", .vfn k)] := rfl
    set e := JSValue.vobj [("default", JSValue.vfn k)] with hed
    set m1 := setProps m (nsAliases m.meta P) e with hm1d
    set m2a := setProps m1 (cjsAliases m.meta P) (JSValue.vfn k) with hm2ad
    set m2b := setProps m1 (cjsAliases m.meta P) e with hm2bd
    have hm1meta : m1.meta = m.meta := setProps_meta _ _ _
    have hm2ameta : m2a.meta = m.meta := by rw [hm2ad, setProps_meta, hm1meta]
    have hm2bmeta : m2b.meta = m.meta := by rw [hm2bd, setProps_meta, hm1meta]
    have hu1 : mockOne m P (.vfn k)
        = mockSymbols m2a P e (nsAliases m.meta P) (cjsAliases m.meta P) ["default"] := rfl
    have hu2 : mockOne m P (.vobj [("default", .vfn k)])
        = mockSymbols m2b P e (nsAliases m.meta P) (cjsAliases m.meta P) ["default"] := rfl
    have hs1 := mockSymbols_single m2a P e (nsAliases m.meta P) (cjsAliases m.meta P) "default"
    have hs2 := mockSymbols_single m2b P e (nsAliases m.meta P) (cjsAliases m.meta P) "default"
    rw [hm2ameta] at hs1
    rw [hm2bmeta] at hs2
    constructor
    · rw [mockRun_single_snd, mockRun_single_snd, hu1, hu2, hs1, hs2]
      by_cases hc : ((namedAliases m.meta P "default").isEmpty
          && (nsAliases m.meta P).isEmpty && (cjsAliases m.meta P).isEmpty) = true
      · rw [if_pos hc, if_pos hc]
      · rw [if_neg hc, if_neg hc]
    · intro a s y v hl hy
      have hacjs : a ∉ cjsAliases m.meta P := by
        rw [cjsAliases_eq]
        exact not_mem_namedAliases_of_lookup hw.1 hl (fun hcon => hy hcon.2.symm)
      have hm2a : m2a.getProp a = m1.getProp a := by
        rw [hm2ad, getProp_setProps, if_neg hacjs]
      have hm2b : m2b.getProp a = m1.getProp a := by
        rw [hm2bd, getProp_setProps, if_neg hacjs]
      rw [mockRun_single_fst, mockRun_single_fst, hu1, hu2, hs1, hs2]
      by_cases hc : ((namedAliases m.meta P "default").isEmpty
          && (nsAliases m.meta P).isEmpty && (cjsAliases m.meta P).isEmpty) = true
      · rw [if_pos hc, if_pos hc]
        show m2a.getProp a = m2b.getProp a
        rw [hm2a, hm2b]
      · rw [if_neg hc, if_neg hc]
        have hLa : (setProps m2a (namedAliases m.meta P "default")
            (getKey e "default")).getProp a
            = if a ∈ namedAliases m.meta P "default" then getKey e "default"
              else m1.getProp a := by
          rw [getProp_setProps, hm2a]
        have hLb : (setProps m2b (namedAliases m.meta P "default")
            (getKey e "default")).getProp a
            = if a ∈ namedAliases m.meta P "default" then getKey e "default"
              else m1.getProp a := by
          rw [getProp_setProps, hm2b]
        show (setProps m2a (namedAliases m.meta P "default") (getKey e "default")).getProp a
          = (setProps m2b (namedAliases m.meta P "default") (getKey e "default")).getProp a
        rw [hLa, hLb]
  · intro d a v hstar hl
    have hans : a ∈ nsAliases m.meta P := by
      rw [nsAliases_eq]
      exact mem_namedAliases.mpr ⟨v, mem_of_lookupAssoc hl⟩
    have hacjs : a ∉ cjsAliases m.meta P := by
      rw [cjsAliases_eq]
      exact not_mem_namedAliases_of_lookup hw.1 hl
        (fun hcon => absurd hcon.2 (by decide))
    set m1 := setProps m (nsAliases m.meta P) (normalizeDesc d) with hm1d
    set m2 := setProps m1 (cjsAliases m.meta P) d with hm2d
    have hm2meta : m2.meta = m.meta := by
      rw [hm2d, setProps_meta, hm1d, setProps_meta]
    have hg1 : m1.getProp a = normalizeDesc d := by
      rw [hm1d, getProp_setProps, if_pos hans]
    have hg2 : m2.getProp a = normalizeDesc d := by
      rw [hm2d, getProp_setProps, if_neg hacjs, hg1]
    rw [mockRun_single_fst, mockOne_unfold]
    rw [mockSymbols_getProp_not_mem, hg2]
    intro sym hsym
    rw [hm2meta]
    refine not_mem_namedAliases_of_lookup hw.1 hl (fun hcon => ?_)
    rw [hcon.2] at hsym
    exact hstar hsym
  · intro d a v hcjsk hl
    have hans : a ∉ nsAliases m.meta P := by
      rw [nsAliases_eq]
      exact not_mem_namedAliases_of_lookup hw.1 hl
        (fun hcon => absurd hcon.2 (by decide))
    have hacjs : a ∈ cjsAliases m.meta P := by
      rw [cjsAliases_eq]
      exact mem_namedAliases.mpr ⟨v, mem_of_lookupAssoc hl⟩
    set m1 := setProps m (nsAliases m.meta P) (normalizeDesc d) with hm1d
    set m2 := setProps m1 (cjsAliases m.meta P) d with hm2d
    have hm2meta : m2.meta = m.meta := by
      rw [hm2d, setProps_meta, hm1d, setProps_meta]
    have hg2 : m2.getProp a = d := by
      rw [hm2d, getProp_setProps, if_pos hacjs]
    rw [mockRun_single_fst, mockOne_unfold]
    rw [mockSymbols_getProp_not_mem, hg2]
    intro sym hsym
    rw [hm2meta]
    refine not_mem_namedAliases_of_lookup hw.1 hl (fun hcon => ?_)
    rw [hcon.2] at hsym
    exact hcjsk hsym

/-- Counterexample for C6 as frozen.  First, a CommonJS whole-module alias
distinguishes the function shorthand from its claimed expansion: with the
registry `{w: ["./W", "<CJS>", 0]}`, `$mock({"./W": f})` sets `w` to the
function itself while `$mock({"./W": {default: f}})` sets `w` to the wrapper
object, so the call does not behave as if the description were
`{default: f}`.  Second, with the registry `{n: ["p", "*", 0]}` and the
description `{"*": 5}`, the namespace alias `n` ends up holding `5` (the
named-symbol pass overwrites it), not the entire description object. -/
theorem c6_counterexample :
    (mockRun (ofMeta [("w", ("./W", "<CJS>", JSValue.vnum 0))])
        [("./W", JSValue.vfn 1)]).1.getProp "w"
      ≠ (mockRun (ofMeta [("w", ("./W", "<CJS>", JSValue.vnum 0))])
        [("./W", JSValue.vobj [("default", JSValue.vfn 1)])]).1.getProp "w" ∧
    (mockRun (ofMeta [("n", ("p", "*", JSValue.vnum 0))])
        [("p", JSValue.vobj [("*", JSValue.vnum 5)])]).1.getProp "n"
      ≠ JSValue.vobj [("*", JSValue.vnum 5)] := by
  constructor
  · intro h
    have h1 : (mockRun (ofMeta [("w", ("./W", "<CJS>", JSValue.vnum 0))])
        [("./W", JSValue.vfn 1)]).1.getProp "w" = JSValue.vfn 1 := rfl
    have h2 : (mockRun (ofMeta [("w", ("./W", "<CJS>", JSValue.vnum 0))])
        [("./W", JSValue.vobj [("default", JSValue.vfn 1)])]).1.getProp "w"
        = JSValue.vobj [("default", JSValue.vfn 1)] := rfl
    rw [h1, h2] at h
    exact JSValue.noConfusion h
  · intro h
    have h1 : (mockRun (ofMeta [("n", ("p", "*", JSValue.vnum 0))])
        [("p", JSValue.vobj [("*", JSValue.vnum 5)])]).1.getProp "n"
        = JSValue.vnum 5 := rfl
    rw [h1] at h
    exact JSValue.noConfusion h

/-- Witness for C6 (amended): a registry with a namespace alias `n` of path
`p` (original `0`) and a named alias `q` importing `s` from `p` (original
`1`).  Mocking with the function shorthand gives `q` the function (same as
the expanded form), and mocking with an object description gives `n` the
whole description. -/
theorem c6_witness :
    ((mockRun (ofMeta [("n", ("p", "*", JSValue.vnum 0)), ("q", ("p", "s", JSValue.vnum 1))])
        [("p", JSValue.vfn 3)]).2
      = (mockRun (ofMeta [("n", ("p", "*", JSValue.vnum 0)), ("q", ("p", "s", JSValue.vnum 1))])
        [("p", JSValue.vobj [("default", JSValue.vfn 3)])]).2) ∧
    ((mockRun (ofMeta [("n", ("p", "*", JSValue.vnum 0)), ("q", ("p", "s", JSValue.vnum 1))])
        [("p", JSValue.vfn 3)]).1.getProp "q"
      = (mockRun (ofMeta [("n", ("p", "*", JSValue.vnum 0)), ("q", ("p", "s", JSValue.vnum 1))])
        [("p", JSValue.vobj [("default", JSValue.vfn 3)])]).1.getProp "q") ∧
    ((mockRun (ofMeta [("n", ("p", "*", JSValue.vnum 0)), ("q", ("p", "s", JSValue.vnum 1))])
        [("p", JSValue.vobj [("s", JSValue.vnum 9)])]).1.getProp "n"
      = JSValue.vobj [("s", JSValue.vnum 9)]) := by
  have h := c6_function_shorthand_amended
    (ofMeta [("n", ("p", "*", JSValue.vnum 0)), ("q", ("p", "s", JSValue.vnum 1))])
    ⟨by decide, by decide⟩ "p"
  refine ⟨(h.1 3).1, ?_, ?_⟩
  · exact (h.1 3).2 "q" "p" "s" (JSValue.vnum 1) rfl (by decide)
  · have := h.2.1 (JSValue.vobj [("s", JSValue.vnum 9)]) "n" (JSValue.vnum 0)
      (by decide) rfl
    simpa [normalizeDesc] using this

/-! ### Claim C10 -/

/-- Claim C10: `$mock` is not atomic on error.  With the registry
`{a: ["p1", "s1", 0]}` and the overlay `{p1: {s1: 42}, p2: {s2: 7}}`, the
call throws the unmatched-symbol error for `(p2, s2)`, yet the alias `a`
matched by the earlier entry keeps its replacement value `42` (its pre-call
value was `0`): the registry is not rolled back. -/
theorem c10_mock_not_atomic :
    (mockRun (ofMeta [("a", ("p1", "s1", JSValue.vnum 0))])
        [("p1", JSValue.vobj [("s1", JSValue.vnum 42)]),
         ("p2", JSValue.vobj [("s2", JSValue.vnum 7)])]).2
      = some (errMsg "s2" "p2") ∧
    (mockRun (ofMeta [("a", ("p1", "s1", JSValue.vnum 0))])
        [("p1", JSValue.vobj [("s1", JSValue.vnum 42)]),
         ("p2", JSValue.vobj [("s2", JSValue.vnum 7)])]).1.getProp "a"
      = JSValue.vnum 42 ∧
    (ofMeta [("a", ("p1", "s1", JSValue.vnum 0))]).getProp "a" = JSValue.vnum 0 :=
  ⟨rfl, rfl, rfl⟩

/-! ### Part 2: the rewriter (`src/index.js`)

The model covers the module-level syntax the plugin inspects.  Expressions
(`Expr`) include identifiers, string literals, calls, (non-computed or
string-literal) member accesses, sequence expressions, `new` expressions and
an opaque remainder; nested function bodies and their scopes are not
representable, so every identifier occurrence in an `Expr` lives in the
top-level scope, where Babel's binding resolution coincides with resolution
by name.  Statements (`Stmt`) are the top-level forms the visitors
distinguish: import declarations, variable declarations, expression
statements holding an assignment (`assignStmt`), other expression statements,
`export {...}` lists and an opaque remainder. -/

/-- Property part of a member expression: `obj.name` (non-computed
identifier), `obj["lit"]` (computed string literal) or anything else. -/
inductive MemberProp where
  | pid (name : String)
  | plit (value : String)
  | pother

/-- Expressions. -/
inductive Expr where
  | ident (name : String)
  | strLit (s : String)
  | call (callee : Expr) (args : List Expr)
  | member (obj : Expr) (prop : MemberProp)
  | seq (exprs : List Expr)
  | newE (callee : Expr) (args : List Expr)
  | eother (tag : String)

/-- Value bound by an object-pattern property: a plain identifier or a more
complex pattern (which `collectCommonJSImports` ignores). -/
inductive PatValue where
  | pvId (name : String)
  | pvOther

/-- Declarator targets: identifier, object pattern (key, bound value) or
other patterns. -/
inductive Pat where
  | id (name : String)
  | objectPat (props : List (String × PatValue))
  | otherPat

/-- Import specifiers: default, namespace, named (`imported` name and `local`
alias), or an unrecognized specifier type (carrying `spec.type`). -/
inductive Spec where
  | sdefault (lcl : String)
  | snamespace (lcl : String)
  | snamed (imported lcl : String)
  | sunknown (tpe lcl : String)

/-- Top-level statements. -/
inductive Stmt where
  | importDecl (source : String) (specs : List Spec)
  | varDecl (kind : String) (decls : List (Pat × Option Expr))
  | assignStmt (lhs rhs : Expr)
  | exprStmt (e : Expr)
  | exportNamed (specs : List (String × String))
  | sother (tag : String)

/-- The local name of a specifier (`spec.local.name`), read before the
specifier kind is dispatched. -/
def Spec.localName : Spec → String
  | .sdefault l => l
  | .snamespace l => l
  | .snamed _ l => l
  | .sunknown _ l => l

/-- An entry of the plugin's `excludeImportsFromModules` list: a string
(matched by `===`) or a regular expression; the only regular expression
appearing in the claims' configuration is the default list's `/\0/`, modelled
as a containment test. -/
inductive ExcludePattern where
  | exact (s : String)
  | contains (sub : String)

/-- Substring test used to model `/\0/.test(source)`. -/
def strContains (s sub : String) : Bool :=
  s.toList.tails.any fun t => sub.toList.isPrefixOf t

/-- The fixed helper module path. -/
def helperImportPath : String := "babel-plugin-mockable-imports/lib/helpers"

/-- The default `EXCLUDE_LIST` of `src/index.js`: the helper module itself,
`proxyquire`, and null-byte-prefixed synthetic module names. -/
def EXCLUDE_LIST : List ExcludePattern :=
  [.exact helperImportPath, .exact "proxyquire", .contains "\x00"]

/-- `excludeImportsFrom(source, excludeList)`. -/
def excludeImportsFrom (excl : List ExcludePattern) (source : String) : Bool :=
  excl.any fun p =>
    match p with
    | .exact s => s == source
    | .contains sub => strContains source sub

/-- `commonJSRequireSource(node)`: the module path of a `require("...")` call
with exactly one string-literal argument, else nothing. -/
def commonJSRequireSource : Expr → Option String
  | .call (.ident "require") [.strLit s] => some s
  | _ => none

/-- `parseRequireExpression(node)`: unwrap a trailing-position sequence
expression once, then recognize `require("m")` (symbol `"<CJS>"`),
`require("m").name` and `require("m")["name"]` (that property as symbol);
anything else is not a CommonJS import. -/
def parseRequireExpression (e : Expr) : Option (String × String) :=
  let node := match e with
    | .seq exprs => exprs.getLast?.getD (.eother "empty-sequence")
    | _ => e
  match node with
  | .call c args =>
    match commonJSRequireSource (.call c args) with
    | some source => some (source, "<CJS>")
    | none => none
  | .member obj prop =>
    match obj with
    | .call c args =>
      match commonJSRequireSource (.call c args) with
      | none => none
      | some source =>
        match prop with
        | .pid name => some (source, name)
        | .plit value => some (source, value)
        | .pother => none
    | _ => none
  | _ => none

/-- `createAddImportCall(alias, source, symbol, value)`: the generated
statement `$imports.$add("alias", "source", "symbol", value);`. -/
def createAddImportCall (al source symbol : String) (value : Expr) : Stmt :=
  .exprStmt (.call (.member (.ident "$imports") (.pid "$add"))
    [.strLit al, .strLit source, .strLit symbol, value])

/-- `isCommonJSExportAssignment`: the assignment target is the member
expression `module.exports` with identifier object and property. -/
def isCommonJSExportAssignment : Expr → Bool
  | .member (.ident o) (.pid p) => o == "module" && p == "exports"
  | _ => false

/-- The visitor state initialized in `Program.enter`: the
`importIdentifiers` map (binding identifier, keyed here by its top-level
name, to the alias registered with `$add`), the `aborted` flag and the
`hasCommonJSExportAssignment` flag.  The claims concern modules that are not
excluded by directory, so `aborted` starts out false. -/
structure RewriteState where
  importIdentifiers : List (String × String)
  aborted : Bool
  hasCommonJSExportAssignment : Bool

/-- Initial state of `Program.enter` for a non-excluded module. -/
def initState : RewriteState :=
  { importIdentifiers := [], aborted := false, hasCommonJSExportAssignment := false }

/-- Detection of the callee `$imports.$add`, used by the
`ReferencedIdentifier` visitor to skip references inside generated
registration calls. -/
def isAddCallee : Expr → Bool
  | .member (.ident o) (.pid p) => o == "$imports" && p == "$add"
  | _ => false

mutual
/-- The `ReferencedIdentifier` visitor as an expression rewrite: an
identifier whose top-level binding is in `importIdentifiers` becomes
`$imports.<alias>` (the alias recorded at registration time), except when the
nearest enclosing call expression is a generated `$imports.$add(...)` call
(tracked by `inAdd`; entering any call resets the flag according to that
call's callee, while member objects, sequences and `new` arguments inherit
it, matching `findParent(p => p.isCallExpression())`). -/
def rewriteExpr (mp : List (String × String)) (inAdd : Bool) : Expr → Expr
  | .ident n =>
    if inAdd then .ident n
    else
      match lookupAssoc mp n with
      | some al => .member (.ident "$imports") (.pid al)
      | none => .ident n
  | .strLit s => .strLit s
  | .call c args =>
    .call (rewriteExpr mp (isAddCallee c) c) (rewriteExprList mp (isAddCallee c) args)
  | .member obj prop => .member (rewriteExpr mp inAdd obj) prop
  | .seq exprs => .seq (rewriteExprList mp inAdd exprs)
  | .newE c args => .newE (rewriteExpr mp inAdd c) (rewriteExprList mp inAdd args)
  | .eother t => .eother t

/-- Pointwise `rewriteExpr` over subexpression lists. -/
def rewriteExprList (mp : List (String × String)) (inAdd : Bool) : List Expr → List Expr
  | [] => []
  | e :: rest => rewriteExpr mp inAdd e :: rewriteExprList mp inAdd rest
end

/-- Rewrite of an assignment target: an identifier on the left of an
assignment is not a referenced identifier and stays untouched; any other
target (e.g. a member expression, whose object is referenced) is rewritten
like an expression. -/
def rewriteLVal (mp : List (String × String)) : Expr → Expr
  | .ident n => .ident n
  | e => rewriteExpr mp false e

/-- The `id.name.startsWith("_")` test of `collectCommonJSImports`, modelled
as a character-list prefix test (same semantics as `String.startsWith`, but
it evaluates definitionally). -/
def startsWithUnderscore (name : String) : Bool :=
  ['_'].isPrefixOf name.toList

/-- The `VariableDeclarator` visitor of `collectCommonJSImports`, for one
declarator: recognize a require-style initializer, skip excluded sources;
for an identifier target skip underscore-prefixed (Babel-generated) names,
otherwise collect `(alias, source, symbol)`; for an object pattern collect
one entry per property bound to a plain identifier, using the property key
as the imported symbol; other patterns collect nothing. -/
def collectDeclarator (excl : List ExcludePattern) :
    Pat × Option Expr → List (String × String × String)
  | (pat, init) =>
    match init.bind parseRequireExpression with
    | none => []
    | some (source, symbol) =>
      if excludeImportsFrom excl source then []
      else
        match pat with
        | .id name =>
          if startsWithUnderscore name then [] else [(name, source, symbol)]
        | .objectPat props =>
          props.filterMap fun p =>
            match p.2 with
            | .pvId n => some (n, source, p.1)
            | .pvOther => none
        | .otherPat => []

/-- Names bound at the top level by a pattern. -/
def patNames : Pat → List String
  | .id n => [n]
  | .objectPat props =>
    props.filterMap fun p =>
      match p.2 with
      | .pvId n => some n
      | .pvOther => none
  | .otherPat => []

/-- Names a statement introduces into the module scope. -/
def stmtDeclaredNames : Stmt → List String
  | .importDecl _ specs => specs.map Spec.localName
  | .varDecl _ decls => (decls.map fun d => patNames d.1).flatten
  | _ => []

/-- The top-level bindings of the module, used to model
`scope.getBinding(name, noGlobal)` (declarations hoist, so the whole module
is consulted). -/
def topLevelNames (m : List Stmt) : List String :=
  (m.map stmtDeclaredNames).flatten

/-- The `specifiers.forEach` loop of the `ImportDeclaration` visitor.  A
specifier local-named `$imports` sets `aborted` (and the loop continues); an
unrecognized specifier type throws; an excluded source is skipped; otherwise
the local is recorded in `importIdentifiers` and an `$imports.$add` call is
inserted after the declaration; each `insertAfter` lands directly after
that import, so successive calls accumulate in reverse (prepending). -/
def processImportSpecs (excl : List ExcludePattern) (source : String) :
    List Spec → RewriteState → List Stmt → Except String (RewriteState × List Stmt)
  | [], st, inserted => .ok (st, inserted)
  | spec :: rest, st, inserted =>
    if spec.localName == "$imports" then
      processImportSpecs excl source rest { st with aborted := true } inserted
    else
      match spec with
      | .sunknown tpe _ => .error ("Unknown import specifier type: " ++ tpe)
      | _ =>
        let imported :=
          match spec with
          | .sdefault _ => "default"
          | .snamespace _ => "*"
          | .snamed imp _ => imp
          | .sunknown tpe _ => tpe
        if excludeImportsFrom excl source then
          processImportSpecs excl source rest st inserted
        else
          processImportSpecs excl source rest
            { st with importIdentifiers :=
                setAssoc st.importIdentifiers spec.localName spec.localName }
            (createAddImportCall spec.localName source imported (.ident spec.localName)
              :: inserted)

/-- One statement under the plugin's visitors.  Returns the statement (with
references rewritten) together with the `$add` statements inserted after it,
and the updated state.  Every visitor returns immediately once `aborted` is
set. -/
def processStmt (excl : List ExcludePattern) (names : List String)
    (st : RewriteState) : Stmt → Except String (List Stmt × RewriteState)
  | .importDecl source specs =>
    if st.aborted then .ok ([.importDecl source specs], st)
    else
      match processImportSpecs excl source specs st [] with
      | .error e => .error e
      | .ok (st1, inserted) => .ok (.importDecl source specs :: inserted, st1)
  | .varDecl kind decls =>
    if st.aborted then .ok ([.varDecl kind decls], st)
    else
      let entries := (decls.map (collectDeclarator excl)).flatten
      let st1 := { st with importIdentifiers :=
                     entries.foldl (fun mp e => setAssoc mp e.1 e.1) st.importIdentifiers }
      let inserted := entries.foldl
        (fun acc e => createAddImportCall e.1 e.2.1 e.2.2 (.ident e.1) :: acc) []
      let decls2 := decls.map fun d => (d.1, d.2.map (rewriteExpr st1.importIdentifiers false))
      .ok (.varDecl kind decls2 :: inserted, st1)
  | .assignStmt lhs rhs =>
    if st.aborted then .ok ([.assignStmt lhs rhs], st)
    else
      let st1 := if isCommonJSExportAssignment lhs then
        { st with hasCommonJSExportAssignment := true } else st
      match lhs with
      | .ident n =>
        match parseRequireExpression rhs with
        | none =>
          .ok ([.assignStmt (.ident n) (rewriteExpr st1.importIdentifiers false rhs)], st1)
        | some (source, symbol) =>
          if names.contains n then
            let st2 := { st1 with importIdentifiers := setAssoc st1.importIdentifiers n n }
            .ok ([.assignStmt (.ident n) (rewriteExpr st2.importIdentifiers false rhs),
                  createAddImportCall n source symbol (.ident n)], st2)
          else
            .ok ([.assignStmt (.ident n) (rewriteExpr st1.importIdentifiers false rhs)], st1)
      | _ =>
        .ok ([.assignStmt (rewriteLVal st1.importIdentifiers lhs)
              (rewriteExpr st1.importIdentifiers false rhs)], st1)
  | .exprStmt e =>
    if st.aborted then .ok ([.exprStmt e], st)
    else .ok ([.exprStmt (rewriteExpr st.importIdentifiers false e)], st)
  | .exportNamed specs => .ok ([.exportNamed specs], st)
  | .sother t => .ok ([.sother t], st)

/-- The traversal over the module's top-level statements in order. -/
def processStmts (excl : List ExcludePattern) (names : List String)
    (st : RewriteState) : List Stmt → Except String (List Stmt × RewriteState)
  | [] => .ok ([], st)
  | s :: rest =>
    match processStmt excl names st s with
    | .error e => .error e
    | .ok (out1, st1) =>
      match processStmts excl names st1 rest with
      | .error e => .error e
      | .ok (out2, st2) => .ok (out1 ++ out2, st2)

/-- The generated `import { ImportMap } from "babel-plugin-mockable-imports/lib/helpers"`. -/
def helperImportStmt : Stmt :=
  .importDecl helperImportPath [.snamed "ImportMap" "ImportMap"]

/-- The generated `const $imports = new ImportMap();`. -/
def importsDeclStmt : Stmt :=
  .varDecl "const" [(.id "$imports", some (.newE (.ident "ImportMap") []))]

/-- The generated `export { $imports };`. -/
def exportImportsStmt : Stmt :=
  .exportNamed [("$imports", "$imports")]

/-- The generated `module.exports.$imports = $imports;`. -/
def cjsExportStmt : Stmt :=
  .assignStmt (.member (.member (.ident "module") (.pid "exports")) (.pid "$imports"))
    (.ident "$imports")

/-- `Program.exit`: nothing is emitted when processing aborted or no import
was registered.  Otherwise `body[0].insertAfter(helperImport)` places the
helper import directly after the first statement of the (already traversed)
body and the `$imports` construction after it; `export { $imports }` is
inserted after the original last statement, and a second `insertAfter` on
that same last statement places `module.exports.$imports = $imports` between
it and the export. -/
def finalizeExit (stmts : List Stmt) (st : RewriteState) : List Stmt :=
  if st.aborted || st.importIdentifiers.isEmpty then stmts
  else
    match stmts with
    | [] => []
    | first :: rest =>
      first :: helperImportStmt :: importsDeclStmt ::
        (rest ++ (if st.hasCommonJSExportAssignment then [cjsExportStmt] else [])
          ++ [exportImportsStmt])

/-- The whole plugin pass over one module. -/
def transform (excl : List ExcludePattern) (m : List Stmt) : Except String (List Stmt) :=
  match processStmts excl (topLevelNames m) initState m with
  | .error e => .error e
  | .ok (stmts, st) => .ok (finalizeExit stmts st)

/-! ### Rewriter lemmas -/

theorem processStmt_aborted {excl : List ExcludePattern} {names : List String}
    {st : RewriteState} (h : st.aborted = true) (s : Stmt) :
    processStmt excl names st s = .ok ([s], st) := by
  cases s <;> simp [processStmt, h]

theorem processStmts_aborted {excl : List ExcludePattern} {names : List String}
    {st : RewriteState} (h : st.aborted = true) (l : List Stmt) :
    processStmts excl names st l = .ok (l, st) := by
  induction l with
  | nil => rfl
  | cons s rest ih => simp [processStmts, processStmt_aborted h, ih]

theorem processStmts_append (excl : List ExcludePattern) (names : List String)
    (st : RewriteState) (l1 l2 : List Stmt) :
    processStmts excl names st (l1 ++ l2) =
      match processStmts excl names st l1 with
      | .error e => .error e
      | .ok (o1, st1) =>
        match processStmts excl names st1 l2 with
        | .error e => .error e
        | .ok (o2, st2) => .ok (o1 ++ o2, st2) := by
  induction l1 generalizing st with
  | nil =>
    cases h2 : processStmts excl names st l2 with
    | error e => simp [processStmts, h2]
    | ok p => cases p with | mk o2 st2 => simp [processStmts, h2]
  | cons s rest ih =>
    cases h1 : processStmt excl names st s with
    | error e => simp [processStmts, h1]
    | ok p =>
      cases p with
      | mk out1 st1 =>
        cases h2 : processStmts excl names st1 rest with
        | error e => simp [processStmts, h1, ih, h2]
        | ok q =>
          cases q with
          | mk o2 st2 =>
            cases h3 : processStmts excl names st2 l2 with
            | error e => simp [processStmts, h1, ih, h2, h3]
            | ok r =>
              cases r with
              | mk o3 st3 => simp [processStmts, h1, ih, h2, h3]

theorem processImportSpecs_aborted_mono {excl : List ExcludePattern} {source : String}
    {specs : List Spec} {st st1 : RewriteState} {ins ins1 : List Stmt}
    (h : processImportSpecs excl source specs st ins = .ok (st1, ins1))
    (hab : st.aborted = true) : st1.aborted = true := by
  induction specs generalizing st ins with
  | nil =>
    simp only [processImportSpecs] at h
    injection h with h2
    injection h2 with h3 h4
    rw [← h3]
    exact hab
  | cons spec rest ih =>
    simp only [processImportSpecs] at h
    by_cases hl : spec.localName == "$imports"
    · rw [if_pos hl] at h
      exact ih h rfl
    · rw [if_neg hl] at h
      cases spec with
      | sunknown tpe l => exact absurd h (by simp)
      | sdefault l =>
        by_cases hex : excludeImportsFrom excl source
        · rw [if_pos hex] at h
          exact ih h hab
        · rw [if_neg hex] at h
          exact ih h hab
      | snamespace l =>
        by_cases hex : excludeImportsFrom excl source
        · rw [if_pos hex] at h
          exact ih h hab
        · rw [if_neg hex] at h
          exact ih h hab
      | snamed imp l =>
        by_cases hex : excludeImportsFrom excl source
        · rw [if_pos hex] at h
          exact ih h hab
        · rw [if_neg hex] at h
          exact ih h hab

theorem processImportSpecs_abort_of_mem {excl : List ExcludePattern} {source : String}
    {specs : List Spec} {st st1 : RewriteState} {ins ins1 : List Stmt}
    (h : processImportSpecs excl source specs st ins = .ok (st1, ins1))
    (hm : ∃ spec ∈ specs, spec.localName = "$imports") : st1.aborted = true := by
  induction specs generalizing st ins with
  | nil => simp at hm
  | cons spec rest ih =>
    obtain ⟨sp, hsp, hname⟩ := hm
    simp only [processImportSpecs] at h
    rcases List.mem_cons.mp hsp with h1 | h1
    · subst h1
      rw [if_pos (by simpa using hname)] at h
      exact processImportSpecs_aborted_mono h rfl
    · by_cases hl : spec.localName == "$imports"
      · rw [if_pos hl] at h
        exact processImportSpecs_aborted_mono h rfl
      · rw [if_neg hl] at h
        cases spec with
        | sunknown tpe l => exact absurd h (by simp)
        | sdefault l =>
          by_cases hex : excludeImportsFrom excl source
          · rw [if_pos hex] at h
            exact ih h ⟨sp, h1, hname⟩
          · rw [if_neg hex] at h
            exact ih h ⟨sp, h1, hname⟩
        | snamespace l =>
          by_cases hex : excludeImportsFrom excl source
          · rw [if_pos hex] at h
            exact ih h ⟨sp, h1, hname⟩
          · rw [if_neg hex] at h
            exact ih h ⟨sp, h1, hname⟩
        | snamed imp l =>
          by_cases hex : excludeImportsFrom excl source
          · rw [if_pos hex] at h
            exact ih h ⟨sp, h1, hname⟩
          · rw [if_neg hex] at h
            exact ih h ⟨sp, h1, hname⟩

mutual
theorem rewriteExpr_nil (f : Bool) : (e : Expr) → rewriteExpr [] f e = e
  | .ident n => by cases f <;> simp [rewriteExpr, lookupAssoc]
  | .strLit s => rfl
  | .call c args => by
    rw [rewriteExpr, rewriteExpr_nil _ c, rewriteExprList_nil _ args]
  | .member obj prop => by
    rw [rewriteExpr, rewriteExpr_nil _ obj]
  | .seq exprs => by
    rw [rewriteExpr, rewriteExprList_nil _ exprs]
  | .newE c args => by
    rw [rewriteExpr, rewriteExpr_nil _ c, rewriteExprList_nil _ args]
  | .eother t => rfl

theorem rewriteExprList_nil (f : Bool) : (es : List Expr) → rewriteExprList [] f es = es
  | [] => rfl
  | e :: rest => by
    rw [rewriteExprList, rewriteExpr_nil _ e, rewriteExprList_nil _ rest]
end

theorem processStmt_out_nonempty {excl : List ExcludePattern} {names : List String}
    {st st1 : RewriteState} {s : Stmt} {out : List Stmt}
    (h : processStmt excl names st s = .ok (out, st1)) : out ≠ [] := by
  cases s with
  | importDecl source specs =>
    by_cases hab : st.aborted = true
    · rw [processStmt_aborted hab] at h
      injection h with h2
      injection h2 with h3 h4
      rw [← h3]
      simp
    · simp only [processStmt] at h
      rw [if_neg hab] at h
      cases hps : processImportSpecs excl source specs st [] with
      | error e => rw [hps] at h; exact absurd h (by simp)
      | ok p =>
        cases p with
        | mk sta ins =>
          rw [hps] at h
          injection h with h2
          injection h2 with h3 h4
          rw [← h3]
          simp
  | varDecl kind decls =>
    by_cases hab : st.aborted = true
    · rw [processStmt_aborted hab] at h
      injection h with h2
      injection h2 with h3 h4
      rw [← h3]
      simp
    · simp only [processStmt] at h
      rw [if_neg hab] at h
      injection h with h2
      injection h2 with h3 h4
      rw [← h3]
      simp
  | assignStmt lhs rhs =>
    by_cases hab : st.aborted = true
    · rw [processStmt_aborted hab] at h
      injection h with h2
      injection h2 with h3 h4
      rw [← h3]
      simp
    · simp only [processStmt] at h
      rw [if_neg hab] at h
      cases lhs with
      | ident n =>
        cases hreq : parseRequireExpression rhs with
        | none =>
          rw [hreq] at h
          injection h with h2
          injection h2 with h3 h4
          rw [← h3]
          simp
        | some p =>
          cases p with
          | mk source symbol =>
            rw [hreq] at h
            by_cases hn : names.contains n
            · simp only [hn, if_true] at h
              injection h with h2
              injection h2 with h3 h4
              rw [← h3]
              simp
            · simp only [hn, Bool.false_eq_true, if_false] at h
              injection h with h2
              injection h2 with h3 h4
              rw [← h3]
              simp
      | strLit s' =>
        injection h with h2
        injection h2 with h3 h4
        rw [← h3]
        simp
      | call c args =>
        injection h with h2
        injection h2 with h3 h4
        rw [← h3]
        simp
      | member obj prop =>
        injection h with h2
        injection h2 with h3 h4
        rw [← h3]
        simp
      | seq exprs =>
        injection h with h2
        injection h2 with h3 h4
        rw [← h3]
        simp
      | newE c args =>
        injection h with h2
        injection h2 with h3 h4
        rw [← h3]
        simp
      | eother t =>
        injection h with h2
        injection h2 with h3 h4
        rw [← h3]
        simp
  | exprStmt e =>
    by_cases hab : st.aborted = true
    · rw [processStmt_aborted hab] at h
      injection h with h2
      injection h2 with h3 h4
      rw [← h3]
      simp
    · simp only [processStmt] at h
      rw [if_neg hab] at h
      injection h with h2
      injection h2 with h3 h4
      rw [← h3]
      simp
  | exportNamed specs =>
    simp only [processStmt] at h
    injection h with h2
    injection h2 with h3 h4
    rw [← h3]
    simp
  | sother t =>
    simp only [processStmt] at h
    injection h with h2
    injection h2 with h3 h4
    rw [← h3]
    simp

theorem processStmts_out_nonempty {excl : List ExcludePattern} {names : List String}
    {m l0 : List Stmt} {st : RewriteState}
    (h : processStmts excl names initState m = .ok (l0, st))
    (hreg : st.importIdentifiers ≠ []) : l0 ≠ [] := by
  cases m with
  | nil =>
    simp only [processStmts] at h
    injection h with h2
    injection h2 with h3 h4
    exact absurd (by rw [← h4]; rfl) hreg
  | cons s rest =>
    simp only [processStmts] at h
    cases h1 : processStmt excl names initState s with
    | error e => rw [h1] at h; exact absurd h (by simp)
    | ok p =>
      cases p with
      | mk out1 st1 =>
        simp only [h1] at h
        cases h2 : processStmts excl names st1 rest with
        | error e =>
          simp only [h2] at h
          exact Except.noConfusion h
        | ok q =>
          cases q with
          | mk o2 st2 =>
            simp only [h2] at h
            injection h with h3
            injection h3 with h4 h5
            rw [← h4]
            exact List.append_ne_nil_of_left_ne_nil (processStmt_out_nonempty h1) _

theorem processStmt_abort_mono {excl : List ExcludePattern} {names : List String}
    {st st1 : RewriteState} {s : Stmt} {out : List Stmt}
    (h : processStmt excl names st s = .ok (out, st1)) (hab : st.aborted = true) :
    st1.aborted = true := by
  rw [processStmt_aborted hab] at h
  injection h with h2
  injection h2 with h3 h4
  rw [← h4]
  exact hab

theorem processStmts_abort_mono {excl : List ExcludePattern} {names : List String}
    {st st1 : RewriteState} {m l : List Stmt}
    (h : processStmts excl names st m = .ok (l, st1)) (hab : st.aborted = true) :
    st1.aborted = true := by
  rw [processStmts_aborted hab] at h
  injection h with h2
  injection h2 with h3 h4
  rw [← h4]
  exact hab

theorem processStmt_abort_of_imports {excl : List ExcludePattern} {names : List String}
    {st st1 : RewriteState} {source : String} {specs : List Spec} {out : List Stmt}
    (hm : ∃ spec ∈ specs, spec.localName = "$imports")
    (h : processStmt excl names st (.importDecl source specs) = .ok (out, st1)) :
    st1.aborted = true := by
  by_cases hab : st.aborted = true
  · exact processStmt_abort_mono h hab
  · simp only [processStmt] at h
    rw [if_neg hab] at h
    cases hps : processImportSpecs excl source specs st [] with
    | error e =>
      simp only [hps] at h
      exact Except.noConfusion h
    | ok p =>
      cases p with
      | mk sta ins =>
        simp only [hps] at h
        injection h with h2
        injection h2 with h3 h4
        rw [← h4]
        exact processImportSpecs_abort_of_mem hps hm

theorem processStmts_abort_of_declares {excl : List ExcludePattern} {names : List String} :
    ∀ (m : List Stmt) (st st1 : RewriteState) (l : List Stmt),
    (∃ source specs, Stmt.importDecl source specs ∈ m ∧
      ∃ spec ∈ specs, spec.localName = "$imports") →
    processStmts excl names st m = .ok (l, st1) → st1.aborted = true := by
  intro m
  induction m with
  | nil =>
    intro st st1 l hm h
    obtain ⟨src, specs, hmem, _⟩ := hm
    simp at hmem
  | cons s rest ih =>
    intro st st1 l hm h
    simp only [processStmts] at h
    cases h1 : processStmt excl names st s with
    | error e =>
      simp only [h1] at h
      exact Except.noConfusion h
    | ok p =>
      cases p with
      | mk out1 sta =>
        simp only [h1] at h
        cases h2 : processStmts excl names sta rest with
        | error e =>
          simp only [h2] at h
          exact Except.noConfusion h
        | ok q =>
          cases q with
          | mk o2 stb =>
            simp only [h2] at h
            injection h with h3
            injection h3 with h4 h5
            obtain ⟨src, specs, hmem, hspec⟩ := hm
            rcases List.mem_cons.mp hmem with hh | hh
            · have hsta : sta.aborted = true := by
                rw [← hh] at h1
                exact processStmt_abort_of_imports hspec h1
              rw [← h5]
              exact processStmts_abort_mono h2 hsta
            · rw [← h5]
              exact ih sta stb o2 ⟨src, specs, hh, hspec⟩ h2

/-! ### Claim C5 -/

/-- Counterexample for C5 as frozen.  The module
`import foo from 'a'; import { $imports } from 'b';` declares an import
whose local name is `$imports`, yet its output is not equal to the input:
the `$imports.$add` registration call for `foo`, inserted before the abort
was triggered, remains in the output.  (The appended registry import,
construction and export are indeed all suppressed.) -/
theorem c5_counterexample :
    transform EXCLUDE_LIST
      [.importDecl "a" [.sdefault "foo"], .importDecl "b" [.snamed "$imports" "$imports"]]
    = .ok [.importDecl "a" [.sdefault "foo"],
           createAddImportCall "foo" "a" "default" (.ident "foo"),
           .importDecl "b" [.snamed "$imports" "$imports"]] ∧
    ([.importDecl "a" [.sdefault "foo"],
      createAddImportCall "foo" "a" "default" (.ident "foo"),
      .importDecl "b" [.snamed "$imports" "$imports"]] : List Stmt)
    ≠ [.importDecl "a" [.sdefault "foo"], .importDecl "b" [.snamed "$imports" "$imports"]] := by
  refine ⟨rfl, ?_⟩
  intro h
  injection h with h1 h2
  injection h2 with h3 h4
  injection h4

/-- Claim C5 (amended): an import specifier locally named `$imports` aborts
all further processing — whenever processing succeeds the `aborted` flag ends
up set and `Program.exit` appends nothing (no registry import, construction
or export), so the output is exactly the traversed statement list; but
registrations already inserted before the abort remain, so the output equals
the input only when nothing was registered or rewritten before the aborting
specifier — in particular whenever the statements before the
`$imports`-import leave the rewriter state untouched, as in the
single-import case. -/
theorem c5_abort_amended :
    (∀ (excl : List ExcludePattern) (m l : List Stmt) (st : RewriteState),
      (∃ source specs, Stmt.importDecl source specs ∈ m ∧
        ∃ spec ∈ specs, spec.localName = "$imports") →
      processStmts excl (topLevelNames m) initState m = .ok (l, st) →
      st.aborted = true ∧ transform excl m = .ok l) ∧
    (∀ (excl : List ExcludePattern) (pre post : List Stmt) (source imp : String),
      processStmts excl (topLevelNames (pre ++ .importDecl source [.snamed imp "$imports"] :: post))
          initState pre = .ok (pre, initState) →
      transform excl (pre ++ .importDecl source [.snamed imp "$imports"] :: post)
        = .ok (pre ++ .importDecl source [.snamed imp "$imports"] :: post)) := by
  constructor
  · intro excl m l st hm h
    have hab : st.aborted = true := processStmts_abort_of_declares m initState st l hm h
    refine ⟨hab, ?_⟩
    show (match processStmts excl (topLevelNames m) initState m with
      | Except.error e => Except.error e
      | Except.ok (stmts, st) => Except.ok (finalizeExit stmts st)) = Except.ok l
    rw [h]
    simp [finalizeExit, hab]
  · intro excl pre post source imp hpre
    set nm := topLevelNames (pre ++ Stmt.importDecl source [Spec.snamed imp "$imports"] :: post)
      with hnm
    have habst : (⟨[], true, false⟩ : RewriteState).aborted = true := rfl
    have himp : processStmt excl nm initState (.importDecl source [.snamed imp "$imports"])
        = .ok ([.importDecl source [.snamed imp "$imports"]],
            (⟨[], true, false⟩ : RewriteState)) := rfl
    have hrest : processStmts excl nm initState
        (Stmt.importDecl source [Spec.snamed imp "$imports"] :: post)
        = .ok (Stmt.importDecl source [Spec.snamed imp "$imports"] :: post,
            (⟨[], true, false⟩ : RewriteState)) := by
      simp only [processStmts, himp, processStmts_aborted habst]
      simp
    have hall : processStmts excl nm initState
        (pre ++ Stmt.importDecl source [Spec.snamed imp "$imports"] :: post)
        = .ok (pre ++ Stmt.importDecl source [Spec.snamed imp "$imports"] :: post,
            (⟨[], true, false⟩ : RewriteState)) := by
      rw [processStmts_append]
      simp only [hpre, hrest]
    show (match processStmts excl nm initState
        (pre ++ Stmt.importDecl source [Spec.snamed imp "$imports"] :: post) with
      | Except.error e => Except.error e
      | Except.ok (stmts, st) => Except.ok (finalizeExit stmts st)) = _
    rw [hall]
    simp [finalizeExit]

/-- Witness for C5 (amended): the single-import module
`import { $imports } from 'a-module'; doSomething();` passes through
unchanged (the test-suite fixture "files that already declare `$imports`"). -/
theorem c5_witness :
    transform EXCLUDE_LIST
      ([] ++ Stmt.importDecl "a-module" [.snamed "$imports" "$imports"]
        :: [Stmt.exprStmt (.call (.ident "doSomething") [])])
    = .ok ([] ++ Stmt.importDecl "a-module" [.snamed "$imports" "$imports"]
        :: [Stmt.exprStmt (.call (.ident "doSomething") [])]) :=
  c5_abort_amended.2 EXCLUDE_LIST []
    [Stmt.exprStmt (.call (.ident "doSomething") [])] "a-module" "$imports" rfl

theorem transform_eq {excl : List ExcludePattern} {m l0 : List Stmt} {st : RewriteState}
    (h : processStmts excl (topLevelNames m) initState m = .ok (l0, st)) :
    transform excl m = .ok (finalizeExit l0 st) := by
  show (match processStmts excl (topLevelNames m) initState m with
    | Except.error e => Except.error e
    | Except.ok (stmts, st) => Except.ok (finalizeExit stmts st)) = Except.ok (finalizeExit l0 st)
  rw [h]

/-! ### Claim C7 -/

/-- Counterexample for C7 as frozen.  For the module
`var foo = require('./foo'); foo(); module.exports = bar;` (a whole-module
CommonJS export with one registered binding), the very last statement of the
output is `export { $imports };`, not `module.exports.$imports = $imports;`:
the CommonJS republication is emitted, but it lands immediately before the
export statement, because the second `insertAfter` on the original last
statement inserts in front of the previously inserted export. -/
theorem c7_counterexample :
    transform EXCLUDE_LIST
      [.varDecl "var" [(.id "foo", some (.call (.ident "require") [.strLit "./foo"]))],
       .exprStmt (.call (.ident "foo") []),
       .assignStmt (.member (.ident "module") (.pid "exports")) (.ident "bar")]
    = .ok [.varDecl "var" [(.id "foo", some (.call (.ident "require") [.strLit "./foo"]))],
           helperImportStmt, importsDeclStmt,
           createAddImportCall "foo" "./foo" "<CJS>" (.ident "foo"),
           .exprStmt (.call (.member (.ident "$imports") (.pid "foo")) []),
           .assignStmt (.member (.ident "module") (.pid "exports")) (.ident "bar"),
           cjsExportStmt, exportImportsStmt] ∧
    ([.varDecl "var" [(.id "foo", some (.call (.ident "require") [.strLit "./foo"]))],
      helperImportStmt, importsDeclStmt,
      createAddImportCall "foo" "./foo" "<CJS>" (.ident "foo"),
      .exprStmt (.call (.member (.ident "$imports") (.pid "foo")) []),
      .assignStmt (.member (.ident "module") (.pid "exports")) (.ident "bar"),
      cjsExportStmt, exportImportsStmt] : List Stmt).getLast? = some exportImportsStmt ∧
    exportImportsStmt ≠ cjsExportStmt := by
  refine ⟨rfl, rfl, ?_⟩
  intro h
  exact Stmt.noConfusion h

/-- Claim C7 (amended): for every module in which a top-level
`module.exports = ...` assignment was observed and at least one binding was
registered (and processing was not aborted), the rewriter emits
`module.exports.$imports = $imports` immediately before the final
`export { $imports }` statement: the output ends with these two statements,
in that order. -/
theorem c7_cjs_export_position_amended (excl : List ExcludePattern) (m l0 : List Stmt)
    (st : RewriteState)
    (hp : processStmts excl (topLevelNames m) initState m = .ok (l0, st))
    (hab : st.aborted = false) (hcjs : st.hasCommonJSExportAssignment = true)
    (hreg : st.importIdentifiers ≠ []) :
    ∃ p, transform excl m = .ok (p ++ [cjsExportStmt, exportImportsStmt]) := by
  have hne : l0 ≠ [] := processStmts_out_nonempty hp hreg
  obtain ⟨first, rest, hl0⟩ := List.exists_cons_of_ne_nil hne
  subst hl0
  refine ⟨first :: helperImportStmt :: importsDeclStmt :: rest, ?_⟩
  rw [transform_eq hp]
  have hie : st.importIdentifiers.isEmpty = false := by
    cases hii : st.importIdentifiers with
    | nil => exact absurd hii hreg
    | cons x xs => rfl
  simp [finalizeExit, hab, hie, hcjs]

/-- Witness for C7 (amended) at the counterexample module: the output ends
with `module.exports.$imports = $imports; export { $imports };`. -/
theorem c7_witness :
    ∃ p, transform EXCLUDE_LIST
      [.varDecl "var" [(.id "foo", some (.call (.ident "require") [.strLit "./foo"]))],
       .exprStmt (.call (.ident "foo") []),
       .assignStmt (.member (.ident "module") (.pid "exports")) (.ident "bar")]
      = .ok (p ++ [cjsExportStmt, exportImportsStmt]) :=
  c7_cjs_export_position_amended EXCLUDE_LIST
    [.varDecl "var" [(.id "foo", some (.call (.ident "require") [.strLit "./foo"]))],
     .exprStmt (.call (.ident "foo") []),
     .assignStmt (.member (.ident "module") (.pid "exports")) (.ident "bar")]
    [.varDecl "var" [(.id "foo", some (.call (.ident "require") [.strLit "./foo"]))],
     createAddImportCall "foo" "./foo" "<CJS>" (.ident "foo"),
     .exprStmt (.call (.member (.ident "$imports") (.pid "foo")) []),
     .assignStmt (.member (.ident "module") (.pid "exports")) (.ident "bar")]
    ⟨[("foo", "foo")], false, true⟩ rfl rfl rfl (by intro h; exact List.noConfusion h)

/-! ### Claim C8 -/

/-- Output of the transform on the two-import module used to refute C8. -/
def c8output : List Stmt :=
  [.importDecl "a" [.sdefault "x"],
   helperImportStmt, importsDeclStmt,
   createAddImportCall "x" "a" "default" (.ident "x"),
   .importDecl "b" [.sdefault "y"],
   createAddImportCall "y" "b" "default" (.ident "y"),
   exportImportsStmt]

/-- Counterexample for C8 as frozen.  For the module
`import x from 'a'; import y from 'b';` the helper import is inserted after
the FIRST statement (`body[0].insertAfter` in `Program.exit`), i.e. between
the two imports, and not immediately after the module's last top-level
one: the last import sits (only) at index 4 of the output, and the
statement following it is the second `$add` call, not the helper import
(which sits at index 1). -/
theorem c8_counterexample :
    transform EXCLUDE_LIST
      [.importDecl "a" [.sdefault "x"], .importDecl "b" [.sdefault "y"]] = .ok c8output ∧
    c8output.get? 4 = some (.importDecl "b" [.sdefault "y"]) ∧
    (∀ i, c8output.get? i = some (.importDecl "b" [.sdefault "y"]) → i = 4) ∧
    c8output.get? 5 ≠ some helperImportStmt ∧
    c8output.get? 1 = some helperImportStmt := by
  refine ⟨rfl, rfl, ?_, ?_, rfl⟩
  · intro i h
    rcases i with _|_|_|_|_|_|_|i
    · injection h with h1
      injection h1 with h2 h3
      exact absurd h2 (by decide)
    · injection h with h1
      injection h1 with h2 h3
      exact absurd h2 (by decide)
    · injection h with h1
      exact Stmt.noConfusion h1
    · injection h with h1
      exact Stmt.noConfusion h1
    · rfl
    · injection h with h1
      exact Stmt.noConfusion h1
    · injection h with h1
      exact Stmt.noConfusion h1
    · exact Option.noConfusion h
  · intro h
    injection h with h1
    exact Stmt.noConfusion h1

/-- Claim C8 (amended): for every module with at least one registered
binding (and processing not aborted), `Program.exit` inserts the registry
helper immediately after the first statement of the traversed body
(`body[0]`), whatever that statement is, with the registry construction
immediately after it — not after the last top-level import. -/
theorem c8_helper_insertion_amended (excl : List ExcludePattern) (m l0 : List Stmt)
    (st : RewriteState)
    (hp : processStmts excl (topLevelNames m) initState m = .ok (l0, st))
    (hab : st.aborted = false) (hreg : st.importIdentifiers ≠ []) :
    ∃ first rest, l0 = first :: rest ∧
      transform excl m = .ok (first :: helperImportStmt :: importsDeclStmt ::
        (rest ++ (if st.hasCommonJSExportAssignment then [cjsExportStmt] else [])
          ++ [exportImportsStmt])) := by
  have hne : l0 ≠ [] := processStmts_out_nonempty hp hreg
  obtain ⟨first, rest, hl0⟩ := List.exists_cons_of_ne_nil hne
  subst hl0
  refine ⟨first, rest, rfl, ?_⟩
  rw [transform_eq hp]
  have hie : st.importIdentifiers.isEmpty = false := by
    cases hii : st.importIdentifiers with
    | nil => exact absurd hii hreg
    | cons x xs => rfl
  simp [finalizeExit, hab, hie]

/-- Witness for C8 (amended) at the two-import counterexample module. -/
theorem c8_witness :
    ∃ first rest,
      ([.importDecl "a" [.sdefault "x"],
        createAddImportCall "x" "a" "default" (.ident "x"),
        .importDecl "b" [.sdefault "y"],
        createAddImportCall "y" "b" "default" (.ident "y")] : List Stmt) = first :: rest ∧
      transform EXCLUDE_LIST
        [.importDecl "a" [.sdefault "x"], .importDecl "b" [.sdefault "y"]]
        = .ok (first :: helperImportStmt :: importsDeclStmt ::
          (rest ++ (if (⟨[("x", "x"), ("y", "y")], false, false⟩
              : RewriteState).hasCommonJSExportAssignment then [cjsExportStmt] else [])
            ++ [exportImportsStmt])) :=
  c8_helper_insertion_amended EXCLUDE_LIST
    [.importDecl "a" [.sdefault "x"], .importDecl "b" [.sdefault "y"]]
    [.importDecl "a" [.sdefault "x"],
     createAddImportCall "x" "a" "default" (.ident "x"),
     .importDecl "b" [.sdefault "y"],
     createAddImportCall "y" "b" "default" (.ident "y")]
    ⟨[("x", "x"), ("y", "y")], false, false⟩ rfl rfl
    (by intro h; exact List.noConfusion h)

/-! ### Claim C9 lemmas -/

theorem processImportSpecs_error {excl : List ExcludePattern} {source : String}
    {specs : List Spec} {st : RewriteState} {ins : List Stmt} {e : String}
    (h : processImportSpecs excl source specs st ins = .error e) :
    ∃ tpe lcl, e = "Unknown import specifier type: " ++ tpe ∧
      Spec.sunknown tpe lcl ∈ specs := by
  induction specs generalizing st ins with
  | nil => exact absurd h (by simp [processImportSpecs])
  | cons spec rest ih =>
    simp only [processImportSpecs] at h
    by_cases hl : spec.localName == "$imports"
    · rw [if_pos hl] at h
      obtain ⟨tpe, lcl, he, hmem⟩ := ih h
      exact ⟨tpe, lcl, he, List.mem_cons_of_mem _ hmem⟩
    · rw [if_neg hl] at h
      cases spec with
      | sunknown tpe l =>
        injection h with h2
        exact ⟨tpe, l, h2.symm, List.mem_cons_self _ _⟩
      | sdefault l =>
        by_cases hex : excludeImportsFrom excl source
        · rw [if_pos hex] at h
          obtain ⟨tpe, lcl, he, hmem⟩ := ih h
          exact ⟨tpe, lcl, he, List.mem_cons_of_mem _ hmem⟩
        · rw [if_neg hex] at h
          obtain ⟨tpe, lcl, he, hmem⟩ := ih h
          exact ⟨tpe, lcl, he, List.mem_cons_of_mem _ hmem⟩
      | snamespace l =>
        by_cases hex : excludeImportsFrom excl source
        · rw [if_pos hex] at h
          obtain ⟨tpe, lcl, he, hmem⟩ := ih h
          exact ⟨tpe, lcl, he, List.mem_cons_of_mem _ hmem⟩
        · rw [if_neg hex] at h
          obtain ⟨tpe, lcl, he, hmem⟩ := ih h
          exact ⟨tpe, lcl, he, List.mem_cons_of_mem _ hmem⟩
      | snamed imp l =>
        by_cases hex : excludeImportsFrom excl source
        · rw [if_pos hex] at h
          obtain ⟨tpe, lcl, he, hmem⟩ := ih h
          exact ⟨tpe, lcl, he, List.mem_cons_of_mem _ hmem⟩
        · rw [if_neg hex] at h
          obtain ⟨tpe, lcl, he, hmem⟩ := ih h
          exact ⟨tpe, lcl, he, List.mem_cons_of_mem _ hmem⟩

theorem processStmt_error {excl : List ExcludePattern} {names : List String}
    {st : RewriteState} {s : Stmt} {e : String}
    (h : processStmt excl names st s = .error e) :
    ∃ source specs tpe lcl, s = .importDecl source specs ∧
      Spec.sunknown tpe lcl ∈ specs ∧ e = "Unknown import specifier type: " ++ tpe := by
  cases s with
  | importDecl source specs =>
    by_cases hab : st.aborted = true
    · rw [processStmt_aborted hab] at h
      exact Except.noConfusion h
    · simp only [processStmt] at h
      rw [if_neg hab] at h
      cases hps : processImportSpecs excl source specs st [] with
      | error e2 =>
        simp only [hps] at h
        injection h with h2
        obtain ⟨tpe, lcl, he, hmem⟩ := processImportSpecs_error hps
        exact ⟨source, specs, tpe, lcl, rfl, hmem, by rw [← h2, he]⟩
      | ok p =>
        cases p with
        | mk sta ins =>
          simp only [hps] at h
          exact Except.noConfusion h
  | varDecl kind decls =>
    by_cases hab : st.aborted = true
    · rw [processStmt_aborted hab] at h
      exact Except.noConfusion h
    · simp only [processStmt] at h
      rw [if_neg hab] at h
      exact Except.noConfusion h
  | assignStmt lhs rhs =>
    by_cases hab : st.aborted = true
    · rw [processStmt_aborted hab] at h
      exact Except.noConfusion h
    · simp only [processStmt] at h
      rw [if_neg hab] at h
      cases lhs with
      | ident n =>
        cases hreq : parseRequireExpression rhs with
        | none =>
          rw [hreq] at h
          exact Except.noConfusion h
        | some p =>
          cases p with
          | mk source symbol =>
            rw [hreq] at h
            by_cases hn : names.contains n
            · simp only [hn, if_true] at h
              exact Except.noConfusion h
            · simp only [hn, Bool.false_eq_true, if_false] at h
              exact Except.noConfusion h
      | strLit s' => exact Except.noConfusion h
      | call c args => exact Except.noConfusion h
      | member obj prop => exact Except.noConfusion h
      | seq exprs => exact Except.noConfusion h
      | newE c args => exact Except.noConfusion h
      | eother t => exact Except.noConfusion h
  | exprStmt e2 =>
    by_cases hab : st.aborted = true
    · rw [processStmt_aborted hab] at h
      exact Except.noConfusion h
    · simp only [processStmt] at h
      rw [if_neg hab] at h
      exact Except.noConfusion h
  | exportNamed specs =>
    simp only [processStmt] at h
    exact Except.noConfusion h
  | sother t =>
    simp only [processStmt] at h
    exact Except.noConfusion h

theorem processStmts_error {excl : List ExcludePattern} {names : List String} :
    ∀ {m : List Stmt} {st : RewriteState} {e : String},
    processStmts excl names st m = .error e →
    ∃ source specs tpe lcl, Stmt.importDecl source specs ∈ m ∧
      Spec.sunknown tpe lcl ∈ specs ∧ e = "Unknown import specifier type: " ++ tpe := by
  intro m
  induction m with
  | nil => intro st e h; exact absurd h (by simp [processStmts])
  | cons s rest ih =>
    intro st e h
    simp only [processStmts] at h
    cases h1 : processStmt excl names st s with
    | error e2 =>
      simp only [h1] at h
      injection h with h2
      obtain ⟨source, specs, tpe, lcl, hs, hmem, he⟩ := processStmt_error h1
      exact ⟨source, specs, tpe, lcl, hs ▸ List.mem_cons_self _ _, hmem, by rw [← h2, he]⟩
    | ok p =>
      cases p with
      | mk out1 st1 =>
        simp only [h1] at h
        cases h2 : processStmts excl names st1 rest with
        | error e2 =>
          simp only [h2] at h
          injection h with h3
          obtain ⟨source, specs, tpe, lcl, hmem1, hmem2, he⟩ := ih h2
          exact ⟨source, specs, tpe, lcl, List.mem_cons_of_mem _ hmem1, hmem2,
            by rw [← h3, he]⟩
        | ok q =>
          cases q with
          | mk o2 st2 =>
            simp only [h2] at h
            exact Except.noConfusion h

theorem processImportSpecs_no_abort {excl : List ExcludePattern} {source : String}
    {specs : List Spec} {st st1 : RewriteState} {ins ins1 : List Stmt}
    (hni : ∀ spec ∈ specs, spec.localName ≠ "$imports")
    (h : processImportSpecs excl source specs st ins = .ok (st1, ins1))
    (hab : st.aborted = false) : st1.aborted = false := by
  induction specs generalizing st ins with
  | nil =>
    simp only [processImportSpecs] at h
    injection h with h2
    injection h2 with h3 h4
    rw [← h3]
    exact hab
  | cons spec rest ih =>
    have hl : ¬ (spec.localName == "$imports") = true := by
      simpa using hni spec (List.mem_cons_self _ _)
    have hni2 : ∀ sp ∈ rest, sp.localName ≠ "$imports" :=
      fun sp hsp => hni sp (List.mem_cons_of_mem _ hsp)
    simp only [processImportSpecs] at h
    rw [if_neg hl] at h
    cases spec with
    | sunknown tpe l => exact absurd h (by simp)
    | sdefault l =>
      by_cases hex : excludeImportsFrom excl source
      · rw [if_pos hex] at h
        exact ih hni2 h hab
      · rw [if_neg hex] at h
        exact ih hni2 h hab
    | snamespace l =>
      by_cases hex : excludeImportsFrom excl source
      · rw [if_pos hex] at h
        exact ih hni2 h hab
      · rw [if_neg hex] at h
        exact ih hni2 h hab
    | snamed imp l =>
      by_cases hex : excludeImportsFrom excl source
      · rw [if_pos hex] at h
        exact ih hni2 h hab
      · rw [if_neg hex] at h
        exact ih hni2 h hab

theorem processImportSpecs_error_of_unknown {excl : List ExcludePattern} {source : String}
    {specs : List Spec} (st : RewriteState) (ins : List Stmt)
    (hni : ∀ spec ∈ specs, spec.localName ≠ "$imports")
    (hu : ∃ tpe lcl, Spec.sunknown tpe lcl ∈ specs) :
    ∃ e, processImportSpecs excl source specs st ins = .error e := by
  induction specs generalizing st ins with
  | nil => simp at hu
  | cons spec rest ih =>
    have hl : ¬ (spec.localName == "$imports") = true := by
      simpa using hni spec (List.mem_cons_self _ _)
    have hni2 : ∀ sp ∈ rest, sp.localName ≠ "$imports" :=
      fun sp hsp => hni sp (List.mem_cons_of_mem _ hsp)
    obtain ⟨tpe, lcl, hmem⟩ := hu
    cases spec with
    | sunknown tpe2 l =>
      refine ⟨"Unknown import specifier type: " ++ tpe2, ?_⟩
      simp only [processImportSpecs]
      rw [if_neg hl]
    | sdefault l =>
      have hmem2 : Spec.sunknown tpe lcl ∈ rest := by
        rcases List.mem_cons.mp hmem with h1 | h1
        · exact absurd h1 (by simp)
        · exact h1
      simp only [processImportSpecs]
      rw [if_neg hl]
      by_cases hex : excludeImportsFrom excl source
      · rw [if_pos hex]
        exact ih _ _ hni2 ⟨tpe, lcl, hmem2⟩
      · rw [if_neg hex]
        exact ih _ _ hni2 ⟨tpe, lcl, hmem2⟩
    | snamespace l =>
      have hmem2 : Spec.sunknown tpe lcl ∈ rest := by
        rcases List.mem_cons.mp hmem with h1 | h1
        · exact absurd h1 (by simp)
        · exact h1
      simp only [processImportSpecs]
      rw [if_neg hl]
      by_cases hex : excludeImportsFrom excl source
      · rw [if_pos hex]
        exact ih _ _ hni2 ⟨tpe, lcl, hmem2⟩
      · rw [if_neg hex]
        exact ih _ _ hni2 ⟨tpe, lcl, hmem2⟩
    | snamed imp l =>
      have hmem2 : Spec.sunknown tpe lcl ∈ rest := by
        rcases List.mem_cons.mp hmem with h1 | h1
        · exact absurd h1 (by simp)
        · exact h1
      simp only [processImportSpecs]
      rw [if_neg hl]
      by_cases hex : excludeImportsFrom excl source
      · rw [if_pos hex]
        exact ih _ _ hni2 ⟨tpe, lcl, hmem2⟩
      · rw [if_neg hex]
        exact ih _ _ hni2 ⟨tpe, lcl, hmem2⟩

theorem processStmt_no_abort {excl : List ExcludePattern} {names : List String}
    {st st1 : RewriteState} {s : Stmt} {out : List Stmt}
    (hni : ∀ source specs, s = .importDecl source specs →
      ∀ spec ∈ specs, spec.localName ≠ "$imports")
    (h : processStmt excl names st s = .ok (out, st1))
    (hab : st.aborted = false) : st1.aborted = false := by
  cases s with
  | importDecl source specs =>
    simp only [processStmt] at h
    rw [if_neg (by simp [hab])] at h
    cases hps : processImportSpecs excl source specs st [] with
    | error e =>
      simp only [hps] at h
      exact Except.noConfusion h
    | ok p =>
      cases p with
      | mk sta ins =>
        simp only [hps] at h
        injection h with h2
        injection h2 with h3 h4
        rw [← h4]
        exact processImportSpecs_no_abort (hni source specs rfl) hps hab
  | varDecl kind decls =>
    simp only [processStmt] at h
    rw [if_neg (by simp [hab])] at h
    injection h with h2
    injection h2 with h3 h4
    rw [← h4]
    exact hab
  | assignStmt lhs rhs =>
    simp only [processStmt] at h
    rw [if_neg (by simp [hab])] at h
    cases lhs with
    | ident n =>
      cases hreq : parseRequireExpression rhs with
      | none =>
        rw [hreq] at h
        injection h with h2
        injection h2 with h3 h4
        rw [← h4]
        by_cases hme : isCommonJSExportAssignment (Expr.ident n) <;> simp [hme, hab]
      | some p =>
        cases p with
        | mk source symbol =>
          rw [hreq] at h
          by_cases hn : names.contains n
          · simp only [hn, if_true] at h
            injection h with h2
            injection h2 with h3 h4
            rw [← h4]
            by_cases hme : isCommonJSExportAssignment (Expr.ident n) <;> simp [hme, hab]
          · simp only [hn, Bool.false_eq_true, if_false] at h
            injection h with h2
            injection h2 with h3 h4
            rw [← h4]
            by_cases hme : isCommonJSExportAssignment (Expr.ident n) <;> simp [hme, hab]
    | strLit s2 =>
      injection h with h2
      injection h2 with h3 h4
      rw [← h4]
      by_cases hme : isCommonJSExportAssignment (Expr.strLit s2) <;> simp [hme, hab]
    | call c args =>
      injection h with h2
      injection h2 with h3 h4
      rw [← h4]
      by_cases hme : isCommonJSExportAssignment (Expr.call c args) <;> simp [hme, hab]
    | member obj prop =>
      injection h with h2
      injection h2 with h3 h4
      rw [← h4]
      by_cases hme : isCommonJSExportAssignment (Expr.member obj prop) <;> simp [hme, hab]
    | seq exprs =>
      injection h with h2
      injection h2 with h3 h4
      rw [← h4]
      by_cases hme : isCommonJSExportAssignment (Expr.seq exprs) <;> simp [hme, hab]
    | newE c args =>
      injection h with h2
      injection h2 with h3 h4
      rw [← h4]
      by_cases hme : isCommonJSExportAssignment (Expr.newE c args) <;> simp [hme, hab]
    | eother t =>
      injection h with h2
      injection h2 with h3 h4
      rw [← h4]
      by_cases hme : isCommonJSExportAssignment (Expr.eother t) <;> simp [hme, hab]
  | exprStmt e =>
    simp only [processStmt] at h
    rw [if_neg (by simp [hab])] at h
    injection h with h2
    injection h2 with h3 h4
    rw [← h4]
    exact hab
  | exportNamed specs =>
    simp only [processStmt] at h
    injection h with h2
    injection h2 with h3 h4
    rw [← h4]
    exact hab
  | sother t =>
    simp only [processStmt] at h
    injection h with h2
    injection h2 with h3 h4
    rw [← h4]
    exact hab

theorem processStmts_error_of_unknown {excl : List ExcludePattern} {names : List String} :
    ∀ (m : List Stmt) (st : RewriteState), st.aborted = false →
    (∀ source specs, Stmt.importDecl source specs ∈ m →
      ∀ spec ∈ specs, spec.localName ≠ "$imports") →
    (∃ source specs tpe lcl, Stmt.importDecl source specs ∈ m ∧
      Spec.sunknown tpe lcl ∈ specs) →
    ∃ e, processStmts excl names st m = .error e := by
  intro m
  induction m with
  | nil =>
    intro st hab hni hu
    obtain ⟨src, specs, tpe, lcl, hmem, _⟩ := hu
    simp at hmem
  | cons s rest ih =>
    intro st hab hni hu
    cases h1 : processStmt excl names st s with
    | error e =>
      refine ⟨e, ?_⟩
      simp [processStmts, h1]
    | ok p =>
      cases p with
      | mk out1 st1 =>
        obtain ⟨src, specs, tpe, lcl, hmem, hmem2⟩ := hu
        have hin_rest : Stmt.importDecl src specs ∈ rest := by
          rcases List.mem_cons.mp hmem with hh | hh
          · exfalso
            have hni1 : ∀ spec ∈ specs, spec.localName ≠ "$imports" :=
              hni src specs hmem
            obtain ⟨e2, he2⟩ := @processImportSpecs_error_of_unknown excl src specs
              st [] hni1 ⟨tpe, lcl, hmem2⟩
            have : processStmt excl names st (.importDecl src specs) = .error e2 := by
              simp only [processStmt]
              rw [if_neg (by simp [hab]), he2]
            rw [← hh] at h1
            rw [h1] at this
            exact Except.noConfusion this
          · exact hh
        have hab1 : st1.aborted = false :=
          processStmt_no_abort
            (fun source2 specs2 hs => by
              subst hs
              exact hni source2 specs2 (List.mem_cons_self _ _)) h1 hab
        obtain ⟨e, he⟩ := ih st1 hab1
          (fun source2 specs2 hmem3 => hni source2 specs2 (List.mem_cons_of_mem _ hmem3))
          ⟨src, specs, tpe, lcl, hin_rest, hmem2⟩
        refine ⟨e, ?_⟩
        simp [processStmts, h1, he]

/-! ### Claim C9 -/

/-- Counterexample for C9 as frozen.  In the module
`import { $imports } from 'a'; import <unknown specifier> from 'b';` the
second declaration contains an import specifier of unrecognized shape, yet
the rewriter does not raise an error: the first declaration aborted
processing, so the unknown specifier is silently skipped and the module
passes through unchanged. -/
theorem c9_counterexample :
    Stmt.importDecl "b" [.sunknown "ImportWeirdSpecifier" "z"] ∈
      ([.importDecl "a" [.snamed "$imports" "$imports"],
        .importDecl "b" [.sunknown "ImportWeirdSpecifier" "z"]] : List Stmt) ∧
    transform EXCLUDE_LIST
      [.importDecl "a" [.snamed "$imports" "$imports"],
       .importDecl "b" [.sunknown "ImportWeirdSpecifier" "z"]]
    = .ok [.importDecl "a" [.snamed "$imports" "$imports"],
           .importDecl "b" [.sunknown "ImportWeirdSpecifier" "z"]] :=
  ⟨List.Mem.tail _ (List.Mem.head _), rfl⟩

/-- Claim C9 (amended): an import specifier of unrecognized kind raises the
hard error `Unknown import specifier type: <type>` provided processing has
not already been aborted (an earlier `$imports`-named import aborts the
module and skips the specifier instead); and this is the only rewrite-time
error: every error the transform returns carries that message for an
unknown specifier occurring in the module.  Part one states the guarantee
for modules declaring no `$imports`-named import; part two the
characterization of all errors. -/
theorem c9_unknown_specifier_amended :
    (∀ (excl : List ExcludePattern) (m : List Stmt),
      (∀ source specs, Stmt.importDecl source specs ∈ m →
        ∀ spec ∈ specs, spec.localName ≠ "$imports") →
      (∃ source specs tpe lcl, Stmt.importDecl source specs ∈ m ∧
        Spec.sunknown tpe lcl ∈ specs) →
      ∃ e, transform excl m = .error e) ∧
    (∀ (excl : List ExcludePattern) (m : List Stmt) (e : String),
      transform excl m = .error e →
      ∃ source specs tpe lcl, Stmt.importDecl source specs ∈ m ∧
        Spec.sunknown tpe lcl ∈ specs ∧
        e = "Unknown import specifier type: " ++ tpe) := by
  constructor
  · intro excl m hni hu
    obtain ⟨e, he⟩ := @processStmts_error_of_unknown excl (topLevelNames m)
      m initState rfl hni hu
    refine ⟨e, ?_⟩
    show (match processStmts excl (topLevelNames m) initState m with
      | Except.error e => Except.error e
      | Except.ok (stmts, st) => Except.ok (finalizeExit stmts st)) = Except.error e
    rw [he]
  · intro excl m e h
    cases hps : processStmts excl (topLevelNames m) initState m with
    | error e2 =>
      have he2 : e2 = e := by
        have : transform excl m = .error e2 := by
          show (match processStmts excl (topLevelNames m) initState m with
            | Except.error e => Except.error e
            | Except.ok (stmts, st) => Except.ok (finalizeExit stmts st)) = Except.error e2
          rw [hps]
        rw [this] at h
        injection h
      obtain ⟨source, specs, tpe, lcl, hmem, hmem2, hetpe⟩ := processStmts_error hps
      exact ⟨source, specs, tpe, lcl, hmem, hmem2, by rw [← he2, hetpe]⟩
    | ok p =>
      cases p with
      | mk stmts st =>
        have : transform excl m = .ok (finalizeExit stmts st) := transform_eq hps
        rw [this] at h
        exact Except.noConfusion h

/-- Witness for C9 (amended): the single-import module with an unrecognized
specifier raises an error, obtained by applying the amended theorem. -/
theorem c9_witness :
    ∃ e, transform EXCLUDE_LIST
      [.importDecl "a" [.sunknown "ImportWeirdSpecifier" "z"]] = .error e :=
  c9_unknown_specifier_amended.1 EXCLUDE_LIST
    [.importDecl "a" [.sunknown "ImportWeirdSpecifier" "z"]]
    (by
      intro source specs hmem spec hsp
      rcases List.mem_cons.mp hmem with hh | hh
      · injection hh with h1 h2
        subst h2
        rcases List.mem_cons.mp hsp with hs | hs
        · subst hs
          intro hcon
          exact absurd hcon (by decide)
        · simp at hs
      · simp at hh)
    ⟨"a", [.sunknown "ImportWeirdSpecifier" "z"], "ImportWeirdSpecifier", "z",
      List.Mem.head _, List.Mem.head _⟩

/-! ### Claim C4 -/

/-- Counterexample for C4 as frozen.  The ES-import module
`import _foo from 'a'; _foo();` binds an underscore-prefixed local alias,
yet the rewriter registers it (`$imports.$add("_foo", ...)` appears in the
output) and rewrites the reference (`_foo()` becomes `$imports._foo()`): the
underscore skip does not apply to declarative import specifiers, only to
require-style variable declarators. -/
theorem c4_counterexample :
    startsWithUnderscore "_foo" = true ∧
    transform EXCLUDE_LIST
      [.importDecl "a" [.sdefault "_foo"], .exprStmt (.call (.ident "_foo") [])]
    = .ok [.importDecl "a" [.sdefault "_foo"],
           helperImportStmt, importsDeclStmt,
           createAddImportCall "_foo" "a" "default" (.ident "_foo"),
           .exprStmt (.call (.member (.ident "$imports") (.pid "_foo")) []),
           exportImportsStmt] ∧
    createAddImportCall "_foo" "a" "default" (.ident "_foo") ∈
      [.importDecl "a" [.sdefault "_foo"],
       helperImportStmt, importsDeclStmt,
       createAddImportCall "_foo" "a" "default" (.ident "_foo"),
       .exprStmt (.call (.member (.ident "$imports") (.pid "_foo")) []),
       exportImportsStmt] :=
  ⟨rfl, rfl,
    List.Mem.tail _ (List.Mem.tail _ (List.Mem.tail _ (List.Mem.head _)))⟩

/-- Claim C4 (amended): the underscore heuristic applies exactly to
require-style variable declarators whose target is a plain identifier: such
a binding with an underscore-prefixed name is collected by no entry of
`collectCommonJSImports` (hence no `$add` registration is emitted and no
reference is rewritten through it), and a module consisting of such a
declaration passes through entirely unchanged.  ES import specifiers,
destructured require properties and assignment-form require imports carry no
underscore check (see the counterexample). -/
theorem c4_underscore_skip_amended :
    (∀ (excl : List ExcludePattern) (name source symbol : String) (init : Expr),
      parseRequireExpression init = some (source, symbol) →
      startsWithUnderscore name = true →
      collectDeclarator excl (.id name, some init) = []) ∧
    (∀ (excl : List ExcludePattern) (kind name : String) (init : Expr),
      startsWithUnderscore name = true →
      transform excl [.varDecl kind [(.id name, some init)]]
        = .ok [.varDecl kind [(.id name, some init)]]) := by
  constructor
  · intro excl name source symbol init hreq hu
    by_cases hex : excludeImportsFrom excl source <;>
      simp [collectDeclarator, hreq, hex, hu]
  · intro excl kind name init hu
    have hc : collectDeclarator excl (.id name, some init) = [] := by
      cases hreq : parseRequireExpression init with
      | none => simp [collectDeclarator, hreq]
      | some p =>
        cases p with
        | mk source symbol =>
          by_cases hex : excludeImportsFrom excl source <;>
            simp [collectDeclarator, hreq, hex, hu]
    have hstep : processStmt excl (topLevelNames [.varDecl kind [(.id name, some init)]])
        initState (.varDecl kind [(.id name, some init)])
        = .ok ([.varDecl kind [(.id name, some init)]], initState) := by
      simp [processStmt, initState, hc, rewriteExpr_nil]
    have hps : processStmts excl (topLevelNames [.varDecl kind [(.id name, some init)]])
        initState [.varDecl kind [(.id name, some init)]]
        = .ok ([.varDecl kind [(.id name, some init)]], initState) := by
      simp [processStmts, hstep]
    rw [transform_eq hps]
    simp [finalizeExit, initState]

/-- Witness for C4 (amended): the declarator `var _req = require('./foo')`
is collected by no entry and the module passes through unchanged. -/
theorem c4_witness :
    collectDeclarator EXCLUDE_LIST
      (.id "_req", some (.call (.ident "require") [.strLit "./foo"])) = [] ∧
    transform EXCLUDE_LIST
      [.varDecl "var" [(.id "_req", some (.call (.ident "require") [.strLit "./foo"]))]]
      = .ok [.varDecl "var" [(.id "_req", some (.call (.ident "require") [.strLit "./foo"]))]] :=
  ⟨c4_underscore_skip_amended.1 EXCLUDE_LIST "_req" "./foo" "<CJS>"
      (.call (.ident "require") [.strLit "./foo"]) rfl rfl,
    c4_underscore_skip_amended.2 EXCLUDE_LIST "var" "_req"
      (.call (.ident "require") [.strLit "./foo"]) rfl⟩
